import Mathlib

/-!
Verification of the kotonemu kernel Process layer (src/packages/kernel/Process.ts)
and its line-discipline engine (class ReadInstance in the same file), against the
natural-language specification.

The embedding below translates the TypeScript source into Lean definitions.
The storage backend (Filesystem), the flag constants (Flags.ts) and the path
utilities (Utils.ts) are not part of the given sources; where they are needed
they are modelled from the specification, and each such definition carries a
doc comment starting with the words Modelled from the spec.

Conventions of the embedding:
- JS numbers that only ever hold small non-negative integers become Nat.
- ArrayBuffer contents become List Nat (one Nat per byte).
- JS strings that are processed code-point-wise become List Char.
- Thrown errors become an explicit error value; process-level operations
  return the (possibly partially mutated) state together with the outcome,
  mirroring the fact that mutations performed before a throw persist.
-/

namespace Kotonemu

/-- Error kinds, from src/packages/kernel/Error.ts imports used by Process.ts;
the I/O error kind named EIO there is written EIOerr here. -/
inductive Err where
  | EBADFD | ENOENT | ENOTDIR | EISDIR | EIOerr | ENOTEMPTY | ELIBBAD | EINVAL | EACCES
  | EEXIST
  deriving DecidableEq, Repr

/-!
## File model (File.ts part of the source)

A file entry carries owner, group, mode, a deleted flag and a kind-specific
payload. The name field of the source lives in the storage key here: the
modelled storage maps a path (list of components) to its entry.
-/

/-- Kind-specific payload of a file entry, from the File.ts tagged variants.
Device read/write are external host callbacks (spec section 6); they carry no
modelled payload here. -/
inductive FNode where
  | regular (data : List Nat)
  | executable (data : Option (List Nat))
  | device
  | symlink (target : List String)
  | filesystemNode
  | directory
  deriving DecidableEq, Repr

/-- A file entry: the IFile fields of File.ts plus the variant payload. -/
structure Entry where
  owner : Nat
  group : Nat
  mode : Nat
  deleted : Bool
  node : FNode
  deriving DecidableEq, Repr

def Entry.isDirectory (e : Entry) : Bool :=
  match e.node with | .directory => true | _ => false

def Entry.isRegularFile (e : Entry) : Bool :=
  match e.node with | .regular _ => true | _ => false

def Entry.isExecutableFile (e : Entry) : Bool :=
  match e.node with | .executable _ => true | _ => false

def Entry.isDeviceFile (e : Entry) : Bool :=
  match e.node with | .device => true | _ => false

def Entry.isSymbolicLink (e : Entry) : Bool :=
  match e.node with | .symlink _ => true | _ => false

/-!
## Permission evaluator (Process._isPermitted, Process.ts lines 153-164)

let owner_mode = entry.mode >> 6;
let group_mode = (entry.mode | 0o700) - 0o700 >> 3;
let other_mode = (entry.mode | 0o770) - 0o770;
let current_mode =
    (entry.owner === this.uid ? owner_mode : 0) |
    (entry.group === this.gid ? group_mode : 0) |
    other_mode;
return !!(current_mode & mode);
-/

/-- Direct translation of Process._isPermitted. The acting uid and gid are the
fields this.uid and this.gid of the calling process. -/
def isPermitted (entry : Entry) (uid gid : Nat) (mode : Nat) : Bool :=
  let owner_mode := entry.mode >>> 6
  let group_mode := ((entry.mode ||| 0o700) - 0o700) >>> 3
  let other_mode := (entry.mode ||| 0o770) - 0o770
  let current_mode :=
    (if entry.owner = uid then owner_mode else 0) |||
    (if entry.group = gid then group_mode else 0) |||
    other_mode
  (current_mode &&& mode) ≠ 0

/-- The formula claimed by the spec for the permission evaluator, written
exactly as the spec section 4.1 states it: ownerBits, groupBits, otherBits are
the three 3-bit fields, the matching classes and the other bits are ORed, and
the result is the test against the requested bits. -/
def specPermitted (entry : Entry) (uid gid : Nat) (mode : Nat) : Bool :=
  let ownerBits := (entry.mode >>> 6) &&& 0b111
  let groupBits := (entry.mode >>> 3) &&& 0b111
  let otherBits := entry.mode &&& 0b111
  let effective :=
    (if uid = entry.owner then ownerBits else 0) |||
    (if gid = entry.group then groupBits else 0) |||
    otherBits
  (effective &&& mode) ≠ 0

/-- Core of the permission computation with the two identity comparisons
abstracted to booleans, used to decide the equivalence by enumeration. -/
def permCore (m : Nat) (bo bg : Bool) (r : Nat) : Bool :=
  ((if bo then m >>> 6 else 0) |||
   (if bg then ((m ||| 0o700) - 0o700) >>> 3 else 0) |||
   ((m ||| 0o770) - 0o770)) &&& r ≠ 0

/-- Core of the spec formula with the identity comparisons abstracted. -/
def permSpecCore (m : Nat) (bo bg : Bool) (r : Nat) : Bool :=
  ((if bo then (m >>> 6) &&& 0b111 else 0) |||
   (if bg then (m >>> 3) &&& 0b111 else 0) |||
   (m &&& 0b111)) &&& r ≠ 0

/-!
## Storage backend model

The Filesystem / FilesystemSession class is not part of the given sources.
Modelled from the spec, section 6: get(path, followLinks) fails with NotFound,
create(parentPath, newEntry) fails with NotFound or AlreadyExists,
delete(path, recursive) fails with NotFound or DirectoryNotEmpty,
list(path) returns the child names.

Paths are modelled as lists of components (the path utility resolve of the
source returns an array of components). All paths appearing in the model are
absolute, already resolved component lists; the path utilities of Utils.ts are
modelled at that level (see resolvePath below). The deleted tombstone flag is
owned by the backend (spec section 3); deletion is modelled as removal of the
entry, so the flag stays false throughout.
-/

abbrev Path := List String

/-- The modelled storage: a finite map from absolute component paths to
entries, as an association list. -/
abbrev FS := List (Path × Entry)

/-- Modelled from the spec: look a path up in the storage. -/
def fsFind (fs : FS) (p : Path) : Option Entry :=
  match fs with
  | [] => none
  | (q, e) :: rest => if q = p then some e else fsFind rest p

/-- Modelled from the spec: replace the entry stored at an existing path. -/
def fsUpdate (fs : FS) (p : Path) (e : Entry) : FS :=
  match fs with
  | [] => []
  | (q, e₀) :: rest => if q = p then (q, e) :: rest else (q, e₀) :: fsUpdate rest p e

/-- Modelled from the spec: number of link hops get is willing to follow when
resolving symbolic links (a bounded chase, enough for every claim). -/
def LINK_FUEL : Nat := 40

/-- Modelled from the spec, section 6: get(path, followLinks). When follow is
set, terminal symbolic links are chased to their target; a missing entry fails
with NotFound. Returns the finally resolved path together with its entry, the
path being the location that subsequent in-place mutation affects. -/
def fsGet (fs : FS) (follow : Bool) : Nat → Path → Except Err (Path × Entry)
  | 0, _ => .error .ENOENT
  | fuel + 1, p =>
    match fsFind fs p with
    | none => .error .ENOENT
    | some e =>
      match e.node with
      | .symlink target => if follow then fsGet fs follow fuel target else .ok (p, e)
      | _ => .ok (p, e)

/-- Modelled from the spec, section 6: create(parentPath, newEntry) places a
named entry under an existing parent directory; fails with NotFound when the
parent is missing (or not a directory) and with AlreadyExists when the name is
taken. -/
def fsCreate (fs : FS) (parent : Path) (name : String) (e : Entry) : Except Err FS :=
  match fsFind fs parent with
  | none => .error .ENOENT
  | some pe =>
    if pe.isDirectory then
      match fsFind fs (parent ++ [name]) with
      | some _ => .error .EEXIST
      | none => .ok ((parent ++ [name], e) :: fs)
    else .error .ENOENT

/-- Does the storage contain a strict descendant of the given path? -/
def fsHasChild (fs : FS) (p : Path) : Bool :=
  fs.any (fun q => q.1.length > p.length && q.1.take p.length = p)

/-- Keep-predicate of a recursive delete: drop the path and its subtree. -/
def delPredRec (p : Path) (q : Path × Entry) : Bool :=
  !(q.1 = p || (q.1.length > p.length && q.1.take p.length = p))

/-- Keep-predicate of a plain delete: drop exactly the path. -/
def delPredOne (p : Path) (q : Path × Entry) : Bool :=
  !(q.1 = p)

/-- Modelled from the spec, section 6: delete(path, recursive) removes the
entry at the path; fails with NotFound when the path is missing, and with
DirectoryNotEmpty when the entry still has children and the call is not
recursive. A recursive delete removes the whole subtree. -/
def fsDelete (fs : FS) (p : Path) (recursive : Bool) : Except Err FS :=
  match fsFind fs p with
  | none => .error .ENOENT
  | some _ =>
    if recursive then .ok (fs.filter (delPredRec p))
    else if fsHasChild fs p then .error .ENOTEMPTY
    else .ok (fs.filter (delPredOne p))

/-- Modelled from the spec, section 6: list(path) returns the names of the
immediate children of the path. -/
def fsList (fs : FS) (p : Path) : List String :=
  (fs.filter (fun q => q.1.length = p.length + 1 && q.1.take p.length = p)).filterMap
    (fun q => q.1.getLast?)

/-!
## Flags

Flags.ts is not part of the given sources.
-/

/-- Modelled from the spec: the READ bit of OpenFlag. The spec only requires
READ and WRITE to be distinct single bits tested with a bitwise and. -/
def OpenFlag.READ : Nat := 1

/-- Modelled from the spec: the WRITE bit of OpenFlag. -/
def OpenFlag.WRITE : Nat := 2

/-- Modelled from the spec: the remove-directory bit of UnlinkFlag. -/
def UnlinkFlag.REMOVE_DIR : Nat := 1

/-- Modelled from the spec: the file-type bits that stat ORs into the mode
(StatMode of Flags.ts), using the conventional POSIX values. -/
def StatMode.IFDIR : Nat := 0o040000

/-- Modelled from the spec: regular-file type bit set. -/
def StatMode.IFREG : Nat := 0o100000

/-- Modelled from the spec: character-device type bit set. -/
def StatMode.IFCHR : Nat := 0o020000

/-- Modelled from the spec: symbolic-link type bit set. -/
def StatMode.IFLNK : Nat := 0o120000

/-!
## File descriptor table

The source stores descriptors in a sparse JS array this.fd indexed by the
descriptor number. _createFileDescriptor allocates
Math.max(...Object.keys(this.fd).map(parseInt)) + 1. In JS, Math.max of an
empty spread is -Infinity and -Infinity + 1 is -Infinity; parseInt applied to
the key string "-Infinity" or "NaN" yields NaN, Math.max over a NaN is NaN and
NaN + 1 is NaN. The key type below mirrors exactly these three kinds of keys
a descriptor slot can acquire.
-/

/-- A JS array key of the descriptor table: a non-negative integer index, or
one of the two degenerate keys the broken max-plus-one allocation produces. -/
inductive FdKey where
  | num (n : Nat)
  | negInf
  | nan
  deriving DecidableEq, Repr

/-- The string a key produces via toString, used as the name of the published
descriptor symlink. -/
def FdKey.name : FdKey → String
  | .num n => toString n
  | .negInf => "-Infinity"
  | .nan => "NaN"

/-- FileDescriptorData of the source: pathname, flags, offset. -/
structure FdData where
  pathname : Path
  flags : Nat
  offset : Nat
  deriving DecidableEq, Repr

/-- The descriptor table, keyed by JS array keys in insertion order. -/
abbrev FdTable := List (FdKey × FdData)

def fdFind (tbl : FdTable) (k : FdKey) : Option FdData :=
  match tbl with
  | [] => none
  | (q, d) :: rest => if q = k then some d else fdFind rest k

/-- Assignment this.fd[k] = data: replaces the slot when the key exists,
appends it otherwise. -/
def fdSet (tbl : FdTable) (k : FdKey) (d : FdData) : FdTable :=
  match tbl with
  | [] => [(k, d)]
  | (q, d₀) :: rest => if q = k then (q, d) :: rest else (q, d₀) :: fdSet rest k d

/-- Removal delete this.fd[k]. -/
def fdRemove (tbl : FdTable) (k : FdKey) : FdTable :=
  tbl.filter (fun q => !(q.1 = k))

/-- parseInt applied to the string form of a key: numeric keys parse to their
value, the strings -Infinity and NaN both parse to NaN (modelled as none). -/
def FdKey.parsed : FdKey → Option Nat
  | .num n => some n
  | .negInf => none
  | .nan => none

/-- The greatest numeric key of the table (0 when there is none). -/
def maxNumKey (tbl : FdTable) : Nat :=
  (tbl.filterMap (fun q => q.1.parsed)).foldl max 0

/-- Math.max(...keys.map(parseInt)) + 1 of _createFileDescriptor: -Infinity on
an empty table, NaN as soon as any key fails to parse, max + 1 otherwise. -/
def nextFdKey (tbl : FdTable) : FdKey :=
  match tbl with
  | [] => .negInf
  | _ =>
    if tbl.any (fun q => q.1.parsed = none) then .nan
    else .num (maxNumKey tbl + 1)

/-!
## Process state and syscalls (class Process of Process.ts)

The emulator collaborator only contributes the per-process descriptor
directory prefix and the pid counter; PROCESS_DIRECTORY is modelled from the
spec as the component list ["proc"]. The environment map only matters through
PWD, kept as an optional path. Every operation returns the possibly mutated
state together with the outcome, because mutations made before a throw
persist in the source.
-/

/-- The state of a process: id, descriptor table, the filesystem reachable
through its session, identity and working directory. -/
structure Proc where
  id : Nat
  fd : FdTable
  fs : FS
  uid : Nat
  gid : Nat
  pwd : Option Path
  deriving DecidableEq, Repr

/-- Modelled from the spec: Emulator.PROCESS_DIRECTORY, the well-known
per-process descriptor directory prefix. -/
def PROCESS_DIRECTORY : Path := ["proc"]

/-- join(PROCESS_DIRECTORY, id.toString(), "fd") of the source. -/
def procFdDir (pid : Nat) : Path := PROCESS_DIRECTORY ++ [toString pid, "fd"]

/-- Modelled from the spec: resolve(pathname, PWD) resolves a path against the
working directory. The model works with already absolute component paths, on
which resolution is the identity; a relative path would be appended to PWD. -/
def resolvePath (p : Path) (_pwd : Option Path) : Path := p

/-- Modelled from the spec: dirname of Utils.ts at the component level. -/
def dirnameP (p : Path) : Path := p.dropLast

/-- Modelled from the spec: basename of Utils.ts at the component level. -/
def basenameP (p : Path) : String := p.getLast?.getD ""

/-- Process._requireFileDescriptorData: the table slot, or EBADFD when the
slot is empty. -/
def requireFdData (p : Proc) (k : FdKey) : Except Err FdData :=
  match fdFind p.fd k with
  | none => .error .EBADFD
  | some d => .ok d

/-- Process._createFileDescriptor: records pathname, offset 0 and flags under
the freshly computed key and returns the key. -/
def createFileDescriptor (p : Proc) (pathname : Path) (flags : Nat) : FdKey × Proc :=
  let k := nextFdKey p.fd
  (k, { p with fd := fdSet p.fd k { pathname := pathname, flags := flags, offset := 0 } })

/-- Process.open, lines 171-216 of Process.ts. The initial lookup does not
follow a terminal link; on ENOENT with the WRITE flag set, the parent is
checked for write permission, a zero-length regular file with mode 0o777 and
owner and group 0 is created, and the path is re-resolved following links.
A directory target fails with EISDIR; the READ and WRITE permission bits are
then checked against the requested flags; finally the descriptor is allocated
and a symlink named after it is published under the descriptor directory. -/
def openFile (p : Proc) (pathname : Path) (flags : Nat) : Proc × Except Err FdKey :=
  let step2 (p : Proc) (entry : Entry) : Proc × Except Err FdKey :=
    if entry.isDirectory then (p, .error .EISDIR)
    else if flags &&& OpenFlag.READ ≠ 0 ∧ isPermitted entry p.uid p.gid 0o4 = false then
      (p, .error .EACCES)
    else if flags &&& OpenFlag.WRITE ≠ 0 ∧ isPermitted entry p.uid p.gid 0o2 = false then
      (p, .error .EACCES)
    else
      let (k, p₁) := createFileDescriptor p pathname flags
      match fsCreate p₁.fs (procFdDir p₁.id) k.name
          { owner := 0, group := 0, mode := 0o700, deleted := false,
            node := .symlink pathname } with
      | .error e => (p₁, .error e)
      | .ok fs₁ => ({ p₁ with fs := fs₁ }, .ok k)
  match fsGet p.fs false LINK_FUEL (resolvePath pathname p.pwd) with
  | .ok (_, entry) => step2 p entry
  | .error e =>
    if flags &&& OpenFlag.WRITE ≠ 0 ∧ e = .ENOENT then
      match fsGet p.fs false LINK_FUEL (resolvePath (dirnameP pathname) p.pwd) with
      | .error e' => (p, .error e')
      | .ok (_, parentEntry) =>
        if isPermitted parentEntry p.uid p.gid 0o2 = false then (p, .error .EACCES)
        else
          match fsCreate p.fs (dirnameP pathname) (basenameP pathname)
              { owner := 0, group := 0, mode := 0o777, deleted := false,
                node := .regular [] } with
          | .error e' => (p, .error e')
          | .ok fs₁ =>
            match fsGet fs₁ true LINK_FUEL (resolvePath pathname p.pwd) with
            | .error e' => ({ p with fs := fs₁ }, .error e')
            | .ok (_, entry) => step2 { p with fs := fs₁ } entry
    else (p, .error e)

/-- Process.unlink, lines 341-356. With the remove-directory flag a
non-directory fails with ENOTDIR and a directory is deleted recursively;
without the flag a directory fails with EISDIR. In both successful branches
control then reaches the final non-recursive delete of the same pathname. -/
def unlink (p : Proc) (pathname : Path) (flags : Nat) : Proc × Except Err Unit :=
  match fsGet p.fs false LINK_FUEL (resolvePath pathname p.pwd) with
  | .error e => (p, .error e)
  | .ok (_, entry) =>
    let afterFlag : Proc × Except Err Unit :=
      if flags &&& UnlinkFlag.REMOVE_DIR ≠ 0 then
        if entry.isDirectory = false then (p, .error .ENOTDIR)
        else
          match fsDelete p.fs pathname true with
          | .error e => (p, .error e)
          | .ok fs₁ => ({ p with fs := fs₁ }, .ok ())
      else
        if entry.isDirectory then (p, .error .EISDIR)
        else (p, .ok ())
    match afterFlag with
    | (p₁, .error e) => (p₁, .error e)
    | (p₁, .ok ()) =>
      match fsDelete p₁.fs pathname false with
      | .error e => (p₁, .error e)
      | .ok fs₂ => ({ p₁ with fs := fs₂ }, .ok ())

/-- Process.close, lines 222-227: unlink the published descriptor symlink,
then delete the table slot. There is no table lookup before the unlink, so an
unknown handle surfaces the ENOENT of the missing symlink, not EBADFD. -/
def close (p : Proc) (k : FdKey) : Proc × Except Err Unit :=
  match unlink p (procFdDir p.id ++ [k.name]) 0 with
  | (p₁, .error e) => (p₁, .error e)
  | (p₁, .ok ()) => ({ p₁ with fd := fdRemove p₁.fd k }, .ok ())

/-- Process.seek, lines 234-238: requires the descriptor and sets its offset,
with no bounds validation. -/
def seek (p : Proc) (k : FdKey) (offset : Nat) : Proc × Except Err Unit :=
  match requireFdData p k with
  | .error e => (p, .error e)
  | .ok d => ({ p with fd := fdSet p.fd k { d with offset := offset } }, .ok ())

/-- Take at most count elements; none models the default Infinity. -/
def takeCount (count : Option Nat) (l : List Nat) : List Nat :=
  match count with
  | none => l
  | some n => l.take n

/-- Modelled from the spec: the fixed synthetic binary payload
generateFakeElfFile lazily installed when an executable lacks data. -/
def fakeElfFile : List Nat := [0x7F, 0x45, 0x4C, 0x46]

/-- Modelled from the spec: the bytes delivered by the asynchronous read of a
device file, an external collaborator outside this layer. -/
def deviceReadBytes : List Nat := []

/-- Process.read, lines 245-267: requires the descriptor and its READ flag
(else EBADFD), re-resolves the stored pathname following links, rejects
directories with EISDIR; a regular or executable file is sliced at
[offset, offset + count) and the cursor advanced by the slice length via seek;
a device delegates to the external device read; anything else fails EIO. -/
def read (p : Proc) (k : FdKey) (count : Option Nat) : Proc × Except Err (List Nat) :=
  match requireFdData p k with
  | .error e => (p, .error e)
  | .ok fdd =>
    if fdd.flags &&& OpenFlag.READ = 0 then (p, .error .EBADFD)
    else
      match fsGet p.fs true LINK_FUEL (resolvePath fdd.pathname p.pwd) with
      | .error e => (p, .error e)
      | .ok (rpath, entry) =>
        if entry.isDirectory then (p, .error .EISDIR)
        else
          match entry.node with
          | .regular d =>
            let data := takeCount count (d.drop fdd.offset)
            let (p₁, _) := seek p k (fdd.offset + data.length)
            (p₁, .ok data)
          | .executable dOpt =>
            let d := dOpt.getD fakeElfFile
            let p₀ := { p with fs := fsUpdate p.fs rpath { entry with node := .executable (some d) } }
            let data := takeCount count (d.drop fdd.offset)
            let (p₁, _) := seek p₀ k (fdd.offset + data.length)
            (p₁, .ok data)
          | .device => (p, .ok deviceReadBytes)
          | _ => (p, .error .EIOerr)

/-- Process.write, lines 274-295: requires the descriptor and its WRITE flag
(else EBADFD), re-resolves the stored pathname following links, rejects
directories with EISDIR; on a regular file the first count bytes of the buffer
are spliced into the data at the cursor offset and the cursor advanced by the
written length via seek; a device delegates to the external device write;
anything else fails EIO. -/
def write (p : Proc) (k : FdKey) (buf : List Nat) (count : Option Nat) :
    Proc × Except Err Unit :=
  match requireFdData p k with
  | .error e => (p, .error e)
  | .ok fdd =>
    if fdd.flags &&& OpenFlag.WRITE = 0 then (p, .error .EBADFD)
    else
      match fsGet p.fs true LINK_FUEL (resolvePath fdd.pathname p.pwd) with
      | .error e => (p, .error e)
      | .ok (rpath, entry) =>
        if entry.isDirectory then (p, .error .EISDIR)
        else
          match entry.node with
          | .regular d =>
            let data := takeCount count buf
            let newData := d.take fdd.offset ++ data ++ d.drop fdd.offset
            let p₀ := { p with fs := fsUpdate p.fs rpath { entry with node := .regular newData } }
            let (p₁, _) := seek p₀ k (fdd.offset + data.length)
            (p₁, .ok ())
          | .device => (p, .ok ())
          | _ => (p, .error .EIOerr)

/-- The Stat record of Process.ts. -/
structure Stat where
  mode : Nat
  owner : Nat
  group : Nat
  size : Nat
  deriving DecidableEq, Repr

/-- Process._stat, lines 297-311: the entry mode with the matching type bit
ORed in, owner, group, and a size of 0. -/
def statOf (entry : Entry) : Stat :=
  let mode :=
    (if entry.isDirectory then StatMode.IFDIR else 0) |||
    (if entry.isRegularFile then StatMode.IFREG else 0) |||
    (if entry.isDeviceFile then StatMode.IFCHR else 0) |||
    (if entry.isSymbolicLink then StatMode.IFLNK else 0)
  { mode := entry.mode ||| mode, owner := entry.owner, group := entry.group, size := 0 }

/-- Process.stat, lines 316-318: resolves the pathname following links. -/
def stat (p : Proc) (pathname : Path) : Except Err Stat :=
  (fsGet p.fs true LINK_FUEL (resolvePath pathname p.pwd)).map (fun r => statOf r.2)

/-- Process.fstat, lines 323-327: requires the descriptor, then resolves the
stored pathname without the follow flag, so a terminal symbolic link is
reported as the link itself. -/
def fstat (p : Proc) (k : FdKey) : Except Err Stat :=
  match requireFdData p k with
  | .error e => .error e
  | .ok fdd =>
    (fsGet p.fs false LINK_FUEL (resolvePath fdd.pathname p.pwd)).map (fun r => statOf r.2)

/-- Process.lstat, lines 332-334: resolves the pathname without following a
terminal symbolic link. -/
def lstat (p : Proc) (pathname : Path) : Except Err Stat :=
  (fsGet p.fs false LINK_FUEL (resolvePath pathname p.pwd)).map (fun r => statOf r.2)

/-!
## Process construction and spawn (constructor lines 106-117, spawn 537-555)
-/

/-- The ProcessInit fields the constructor consumes, with the optional
descriptor table. The filesystem session, environment and working directory
are carried alongside. -/
structure ProcessInit where
  id : Nat
  fd : Option FdTable
  fs : FS
  pwd : Option Path
  uid : Nat
  gid : Nat
  deriving DecidableEq, Repr

/-- The constructor of class Process: copies id and the descriptor table
(defaulting to empty), obtains a session on the passed filesystem, and then
sets this.uid = 0 and this.gid = 0 on lines 115-116, ignoring the uid and gid
fields of the init record. -/
def mkProcess (init : ProcessInit) : Proc :=
  { id := init.id
    fd := init.fd.getD []
    fs := init.fs
    uid := 0
    gid := 0
    pwd := init.pwd }

/-- The init record Process.spawn passes to the constructor: the fresh pid
from the emulator counter, no descriptor table, the callers filesystem
session, environment and identity. -/
def spawnInit (parent : Proc) (newPid : Nat) : ProcessInit :=
  { id := newPid, fd := none, fs := parent.fs, pwd := parent.pwd,
    uid := parent.uid, gid := parent.gid }

/-- The child process as constructed by spawn before its three tty opens. -/
def spawnChildBase (parent : Proc) (newPid : Nat) : Proc :=
  mkProcess (spawnInit parent newPid)

/-!
## Line discipline engine (class ReadInstance, Process.ts lines 622-762)

The process method decodes the raw bytes as UTF-8 and normalizes CRLF and
lone CR to LF before character-wise processing; the model takes the decoded
character list as input and performs the same normalization. JS strings
measure length in UTF-16 code units, so getLength (String.length) counts a
character beyond the basic multilingual plane as 2. The single-character
regular expressions /(.)$/u and /^(.)/u of the source do not match the line
terminators LF, CR, U+2028 and U+2029; on such a character the source
dereferences a null match and throws a TypeError, modelled by the crashed
flag: once it is set no further step runs and the call yields no echo.
-/

/-- Characters matched by the JS regexp dot without the s flag. -/
def jsDotMatch (c : Char) : Bool :=
  !(c = Char.ofNat 10 || c = Char.ofNat 13 || c.toNat = 0x2028 || c.toNat = 0x2029)

/-- UTF-16 length of one character (String.length counts code units). -/
def utf16Len (c : Char) : Nat := if c.toNat ≥ 0x10000 then 2 else 1

/-- UTF-16 length of a string given as its characters. -/
def utf16LenStr (l : List Char) : Nat := (l.map utf16Len).sum

/-- In-call state of ReadInstance.process: the persistent buffer (backward,
forward) and ended flag, the echo accumulated so far (response), the pending
trailing-blank count (shiftCount), the remaining input characters, and the
crashed flag modelling a thrown TypeError. -/
structure RSt where
  backward : List Char
  forward : List Char
  ended : Bool
  resp : List Char
  shift : Nat
  chars : List Char
  crashed : Bool
  deriving DecidableEq, Repr

/-- write(char) of the source: append to the echo. -/
def wr (s : RSt) (t : List Char) : RSt := { s with resp := s.resp ++ t }

/-- bell() of the source: append BEL only when the echo does not already
contain it. -/
def bell (s : RSt) : RSt :=
  if '\x07' ∈ s.resp then s else { s with resp := s.resp ++ ['\x07'] }

/-- A cursor-control echo ESC [ n cmd, with the count printed in decimal. -/
def escEcho (n : Nat) (cmd : Char) : List Char :=
  '\x1B' :: '[' :: (toString n).data ++ [cmd]

/-- The dispatch on the terminating letter of a recognized escape sequence
(the command variable of the source, lines 695-739): A and B are reserved, C
moves one character from the front of forward to the end of backward, D one
the other way, H moves all of backward in front of forward, F all of forward
behind backward; each bells instead when the source segment is empty; any
other letter only reaches the diagnostic log and has no effect. -/
def execCommand (cmd : Char) (s : RSt) : RSt :=
  if cmd = 'A' ∨ cmd = 'B' then s
  else if cmd = 'C' then
    match s.forward with
    | [] => bell s
    | c :: rest =>
      if jsDotMatch c then
        wr { s with backward := s.backward ++ [c], forward := rest } (escEcho (utf16Len c) 'C')
      else { s with crashed := true }
  else if cmd = 'D' then
    match s.backward.getLast? with
    | none => bell s
    | some c =>
      if jsDotMatch c then
        wr { s with backward := s.backward.dropLast, forward := c :: s.forward }
          (escEcho (utf16Len c) 'D')
      else { s with crashed := true }
  else if cmd = 'H' then
    if s.backward = [] then bell s
    else
      wr { s with forward := s.backward ++ s.forward, backward := [] }
        (escEcho (utf16LenStr s.backward) 'D')
  else if cmd = 'F' then
    if s.forward = [] then bell s
    else
      wr { s with backward := s.backward ++ s.forward, forward := [] }
        (escEcho (utf16LenStr s.forward) 'C')
  else s

/-- Is the character a parameter byte of an escape sequence (semicolon or a
decimal digit), as tested on line 688 of the source? -/
def isParamChar (c : Char) : Prop := c = ';' ∨ (48 ≤ c.toNat ∧ c.toNat ≤ 57)

instance (c : Char) : Decidable (isParamChar c) := by
  unfold isParamChar
  infer_instance

mutual

/-- read(push) of the source (lines 664-750): consume one input character and
dispatch on it. Returns the character read (none models the undefined result
on exhausted input) with the new state. The fuel only bounds the
escape-sequence lookahead recursion; every use supplies at least the length
of the remaining input plus one, which the recursion never exhausts. -/
def readChar : Nat → Bool → RSt → Option Char × RSt
  | 0, _, s => (none, s)
  | fuel + 1, push, s =>
    if s.crashed then (none, s)
    else
      match s.chars with
      | [] => (none, s)
      | c :: rest =>
        let s0 := { s with chars := rest }
        if c = '\x7F' ∨ c = '\x08' then
          match s0.backward.getLast? with
          | none => (some c, bell s0)
          | some rc =>
            if jsDotMatch rc then
              (some c,
                wr { s0 with backward := s0.backward.dropLast,
                             shift := s0.shift + utf16Len rc }
                  (escEcho (utf16Len rc) 'D'))
            else (some c, { s0 with crashed := true })
        else if c = '\x1B' then
          let r1 := readChar fuel false s0
          if r1.2.crashed then (some c, r1.2)
          else if r1.1 = some '[' then (some c, paramLoop fuel r1.2)
          else (some c, r1.2)
        else if c = '\n' then
          (some c, wr { s0 with ended := true } [c])
        else
          (some c, if push then wr { s0 with backward := s0.backward ++ [c] } [c] else s0)

/-- The escape-parameter loop of the source (lines 683-693): keep reading
characters through read(false) until one arrives that is neither a digit nor
a semicolon (that character becomes the command and is dispatched), or the
input runs out (then the loop breaks and the dispatch matches nothing). -/
def paramLoop : Nat → RSt → RSt
  | 0, s => s
  | fuel + 1, s =>
    if s.crashed then s
    else
      let r1 := readChar fuel false s
      match r1.1 with
      | none => r1.2
      | some c =>
        if r1.2.crashed then r1.2
        else if isParamChar c then paramLoop fuel r1.2
        else execCommand c r1.2

end

/-- The while loop of process (lines 663-754): repeat read() until the input
is exhausted, stopping right after a step that set hasEnded; a crash models
the TypeError aborting the whole call. -/
def procLoop : Nat → RSt → RSt
  | 0, s => s
  | fuel + 1, s =>
    if s.crashed then s
    else
      match s.chars with
      | [] => s
      | _ :: _ =>
        let s1 := (readChar (s.chars.length + 1) true s).2
        if s1.crashed then s1
        else if s1.ended then s1
        else procLoop fuel s1

/-- replaceAll of CRLF to LF: left to right, non-overlapping. -/
def normCRLF : List Char → List Char
  | '\x0D' :: '\n' :: rest => '\n' :: normCRLF rest
  | c :: rest => c :: normCRLF rest
  | [] => []

/-- The newline absorption of process (lines 642-644): CRLF, then every
remaining lone CR, becomes LF. -/
def normalizeInput (l : List Char) : List Char :=
  (normCRLF l).map (fun c => if c = '\x0D' then '\n' else c)

/-- Persistent state of a ReadInstance between process calls. -/
structure ReadInstanceState where
  backward : List Char
  forward : List Char
  hasEnded : Bool
  deriving DecidableEq, Repr

/-- A fresh ReadInstance (constructor, lines 629-635). -/
def ReadInstance.fresh : ReadInstanceState := ⟨[], [], false⟩

/-- The blanks used to erase stale screen content. -/
def blanks (n : Nat) : List Char := List.replicate n ' '

/-- ReadInstance.process (lines 637-757): normalize the input, run the loop,
then append the tail echo (the leftover forward text, the pending trailing
blanks, and one cursor-left move sized to both) unless the call crashed.
Returns the new instance state, the echo, and the crash indicator. -/
def processCall (ri : ReadInstanceState) (input : List Char) :
    ReadInstanceState × List Char × Bool :=
  let chars := normalizeInput input
  let s := procLoop (chars.length + 1) ⟨ri.backward, ri.forward, ri.hasEnded, [], 0, chars, false⟩
  if s.crashed then (⟨s.backward, s.forward, s.ended⟩, s.resp, true)
  else
    let tail :=
      if utf16LenStr s.forward + s.shift > 0 then
        s.forward ++ blanks s.shift ++ escEcho (utf16LenStr s.forward + s.shift) 'D'
      else []
    (⟨s.backward, s.forward, s.ended⟩, s.resp ++ tail, false)

/-- The line accessor of ReadInstance (lines 759-761). -/
def ReadInstanceState.line (ri : ReadInstanceState) : List Char :=
  ri.backward ++ ri.forward

end Kotonemu

namespace Kotonemu

set_option maxRecDepth 4096 in
theorem permCore_eq_spec :
    ∀ m < 512, ∀ r < 8, ∀ bo bg : Bool, permCore m bo bg r = permSpecCore m bo bg r := by
  decide

theorem isPermitted_eq_permCore (e : Entry) (uid gid r : Nat) :
    isPermitted e uid gid r = permCore e.mode (decide (e.owner = uid)) (decide (e.group = gid)) r := by
  by_cases h₁ : e.owner = uid <;> by_cases h₂ : e.group = gid <;>
    simp [isPermitted, permCore, h₁, h₂]

theorem specPermitted_eq_permSpecCore (e : Entry) (uid gid r : Nat) :
    specPermitted e uid gid r =
      permSpecCore e.mode (decide (e.owner = uid)) (decide (e.group = gid)) r := by
  by_cases h₁ : uid = e.owner <;> by_cases h₂ : gid = e.group <;>
    simp [specPermitted, permSpecCore, h₁, h₂, eq_comm]

/-- Claim C1: for every file entry with a 9-bit mode, every acting uid and
gid and every requested bit pattern r in 1..7, the permission evaluator
returns true iff the spec formula
(owner-match ? (m toBits 6) : 0) or (group-match ? (m toBits 3) : 0) or
(m low bits), masked with r, is nonzero; the other bits are always ORed in.
In particular for mode 0o640, owner 5, group 9: uid 5 passes read and write
and fails execute for any acting gid, and uid 1 with gid 9 passes read and
fails write. -/
theorem c1_permission_evaluator :
    (∀ (e : Entry) (uid gid r : Nat), e.mode < 512 → 1 ≤ r → r ≤ 7 →
      (isPermitted e uid gid r = true ↔ specPermitted e uid gid r = true)) ∧
    (∀ gid2 : Nat,
      isPermitted ⟨5, 9, 0o640, false, .regular []⟩ 5 gid2 4 = true ∧
      isPermitted ⟨5, 9, 0o640, false, .regular []⟩ 5 gid2 2 = true ∧
      isPermitted ⟨5, 9, 0o640, false, .regular []⟩ 5 gid2 1 = false) ∧
    (isPermitted ⟨5, 9, 0o640, false, .regular []⟩ 1 9 4 = true ∧
     isPermitted ⟨5, 9, 0o640, false, .regular []⟩ 1 9 2 = false) := by
  refine ⟨?_, ?_, ?_, ?_⟩
  · intro e uid gid r hm h1 h7
    rw [isPermitted_eq_permCore, specPermitted_eq_permSpecCore,
      permCore_eq_spec e.mode hm r (by omega)]
  · intro gid2
    by_cases h : (9 : Nat) = gid2 <;>
      refine ⟨?_, ?_, ?_⟩ <;> simp [isPermitted, h]
  · decide
  · decide

/-- Witness for claim C1: the equivalence applied at a concrete entry,
discharging the mode and requested-bit range hypotheses there. -/
theorem c1_permission_evaluator_witness :
    isPermitted ⟨7, 3, 0o640, false, .regular []⟩ 7 4 2 = true ↔
      specPermitted ⟨7, 3, 0o640, false, .regular []⟩ 7 4 2 = true :=
  c1_permission_evaluator.1 ⟨7, 3, 0o640, false, .regular []⟩ 7 4 2
    (by decide) (by decide) (by decide)

theorem LINK_FUEL_succ : LINK_FUEL = 39 + 1 := rfl

theorem fsGet_false_of_find {fs : FS} {p : Path} {e : Entry} (n : Nat)
    (h : fsFind fs p = some e) : fsGet fs false (n + 1) p = .ok (p, e) := by
  simp only [fsGet, h]
  cases e.node <;> simp

theorem fsGet_none_of_find {fs : FS} {p : Path} (n : Nat)
    (h : fsFind fs p = none) : fsGet fs false (n + 1) p = .error .ENOENT := by
  simp [fsGet, h]

theorem fsGet_find_none_of_enoent {fs : FS} {p : Path} {n : Nat} {follow : Bool}
    (h : fsGet fs follow (n + 1) p = .error .ENOENT) :
    fsFind fs p = none ∨ ∃ e t, fsFind fs p = some e ∧ e.node = .symlink t := by
  cases hf : fsFind fs p with
  | none => exact .inl rfl
  | some e =>
    cases hn : e.node <;> simp only [fsGet, hf, hn] at h <;>
      first
        | exact absurd h (by simp)
        | exact .inr ⟨e, _, rfl, hn⟩

theorem fsGet_true_of_find_nonlink {fs : FS} {p : Path} {e : Entry} (n : Nat)
    (h : fsFind fs p = some e) (hl : e.isSymbolicLink = false) :
    fsGet fs true (n + 1) p = .ok (p, e) := by
  simp only [fsGet, h]
  cases hn : e.node <;> simp_all [Entry.isSymbolicLink]

theorem fsGet_true_one_hop {fs : FS} {p t : Path} {l e : Entry} (n : Nat)
    (hl : fsFind fs p = some l) (ht : l.node = .symlink t)
    (he : fsFind fs t = some e) (hns : e.isSymbolicLink = false) :
    fsGet fs true (n + 2) p = .ok (t, e) := by
  simp only [fsGet, hl, ht, if_pos rfl]
  exact fsGet_true_of_find_nonlink n he hns

theorem fsFind_cons_self {fs : FS} {p : Path} {e : Entry} :
    fsFind ((p, e) :: fs) p = some e := by
  simp [fsFind]

theorem fsFind_cons_ne {fs : FS} {p q : Path} {e : Entry} (h : q ≠ p) :
    fsFind ((q, e) :: fs) p = fsFind fs p := by
  simp [fsFind, h]

theorem fdFind_fdSet_self {tbl : FdTable} {k : FdKey} {d : FdData} :
    fdFind (fdSet tbl k d) k = some d := by
  induction tbl with
  | nil => simp [fdFind, fdSet]
  | cons q rest ih =>
    by_cases h : q.1 = k
    · simp [fdFind, fdSet, h]
    · simp [fdFind, fdSet, h, ih]

theorem fdFind_fdRemove_self {tbl : FdTable} {k : FdKey} :
    fdFind (fdRemove tbl k) k = none := by
  induction tbl with
  | nil => simp [fdFind, fdRemove]
  | cons q rest ih =>
    by_cases h : q.1 = k
    · simpa [fdRemove, h] using ih
    · simpa [fdRemove, fdFind, h] using ih

theorem fsFind_filter_none {fs : FS} {p : Path} {pred : Path × Entry → Bool}
    (h : ∀ e : Entry, pred (p, e) = false) : fsFind (fs.filter pred) p = none := by
  induction fs with
  | nil => simp [fsFind]
  | cons q rest ih =>
    by_cases hq : q.1 = p
    · have : pred q = false := by
        obtain ⟨q1, q2⟩ := q
        subst hq
        exact h q2
      simp [List.filter, this, ih]
    · cases hpq : pred q
      · simp [List.filter, hpq, ih]
      · simpa [List.filter, hpq, fsFind, hq] using ih

/-- Claim C2: write on a regular-file descriptor splices the first count
bytes of the buffer into the data at the cursor offset (insert, not
overwrite) and advances the cursor by the written length; hence writing AB at
offset 0 into an empty file then reading from offset 0 returns AB, and
writing X at offset 1 into a file containing AB yields AXB. -/
theorem c2_write_splices :
    (∀ (p : Proc) (k : FdKey) (fdd : FdData) (rpath : Path) (e : Entry)
        (d buf : List Nat) (count : Option Nat),
      fdFind p.fd k = some fdd →
      fdd.flags &&& OpenFlag.WRITE ≠ 0 →
      fsGet p.fs true LINK_FUEL (resolvePath fdd.pathname p.pwd) = .ok (rpath, e) →
      e.node = .regular d →
      write p k buf count =
        ({ p with
            fs := fsUpdate p.fs rpath
              { e with node := FNode.regular (d.take fdd.offset ++ takeCount count buf ++ d.drop fdd.offset) },
            fd := fdSet p.fd k
              { fdd with offset := fdd.offset + (takeCount count buf).length } },
         .ok ())) ∧
    (read ((seek ((write
        ⟨1, [(.num 0, ⟨["f"], 3, 0⟩)],
          [([], ⟨0, 0, 0o755, false, .directory⟩), (["f"], ⟨0, 0, 0o644, false, .regular []⟩)],
          0, 0, none⟩
        (.num 0) [65, 66] none).1) (.num 0) 0).1) (.num 0) none).2 = .ok [65, 66] ∧
    fsFind ((write
        ⟨1, [(.num 0, ⟨["f"], 2, 1⟩)],
          [([], ⟨0, 0, 0o755, false, .directory⟩), (["f"], ⟨0, 0, 0o644, false, .regular [65, 66]⟩)],
          0, 0, none⟩
        (.num 0) [88] none).1.fs) ["f"] = some ⟨0, 0, 0o644, false, .regular [65, 88, 66]⟩ := by
  refine ⟨?_, by rfl, by rfl⟩
  intro p k fdd rpath e d buf count h1 h2 h3 h4
  have hdir : e.isDirectory = false := by simp [Entry.isDirectory, h4]
  simp only [write, requireFdData, h1, h2, if_neg (by simpa using h2), h3, hdir,
    Bool.false_eq_true, if_false, h4, seek, fdSet]

/-- Witness for claim C2: the splice equation applied to a concrete state. -/
theorem c2_write_splices_witness :
    write ⟨1, [(.num 0, ⟨["f"], 2, 1⟩)],
        [([], ⟨0, 0, 0o755, false, .directory⟩), (["f"], ⟨0, 0, 0o644, false, .regular [65, 66]⟩)],
        0, 0, none⟩ (.num 0) [88] none =
      ({ id := 1,
         fd := fdSet [(.num 0, ⟨["f"], 2, 1⟩)] (.num 0) ⟨["f"], 2, 1 + 1⟩,
         fs := fsUpdate
           [([], ⟨0, 0, 0o755, false, .directory⟩), (["f"], ⟨0, 0, 0o644, false, .regular [65, 66]⟩)]
           ["f"] ⟨0, 0, 0o644, false, .regular ([65].take 1 ++ [88] ++ [65, 66].drop 1)⟩,
         uid := 0, gid := 0, pwd := none }, .ok ()) := by
  have := c2_write_splices.1
    ⟨1, [(.num 0, ⟨["f"], 2, 1⟩)],
      [([], ⟨0, 0, 0o755, false, .directory⟩), (["f"], ⟨0, 0, 0o644, false, .regular [65, 66]⟩)],
      0, 0, none⟩
    (.num 0) ⟨["f"], 2, 1⟩ ["f"] ⟨0, 0, 0o644, false, .regular [65, 66]⟩
    [65, 66] [88] none rfl (by decide) (by rfl) rfl
  simpa [takeCount] using this

theorem init_le_foldl_max : ∀ (l : List Nat) (a : Nat), a ≤ l.foldl max a := by
  intro l
  induction l with
  | nil => intro a; exact le_refl a
  | cons b t ih => intro a; exact le_trans (le_max_left a b) (ih (max a b))

theorem mem_le_foldl_max {l : List Nat} {x : Nat} (a : Nat) (h : x ∈ l) :
    x ≤ l.foldl max a := by
  induction l generalizing a with
  | nil => cases h
  | cons b t ih =>
    rcases List.mem_cons.mp h with rfl | hx
    · exact le_trans (le_max_right a x) (init_le_foldl_max t (max a x))
    · exact ih (max a b) hx

theorem nextFdKey_allNum {tbl : FdTable} (hne : tbl ≠ [])
    (hnum : ∀ q ∈ tbl, q.1.parsed ≠ none) :
    nextFdKey tbl = .num (maxNumKey tbl + 1) := by
  cases tbl with
  | nil => exact absurd rfl hne
  | cons q t =>
    have hany : (q :: t).any (fun q => q.1.parsed = none) = false := by
      simp only [List.any_eq_false, decide_eq_true_eq]
      exact fun x hx => hnum x hx
    simp [nextFdKey, hany]

theorem fdFind_none_of_all_lt {tbl : FdTable} {n : Nat}
    (h : ∀ q ∈ tbl, ∀ m, q.1 = .num m → m < n) : fdFind tbl (.num n) = none := by
  induction tbl with
  | nil => rfl
  | cons q t ih =>
    have hq : q.1 ≠ .num n := by
      intro he
      cases hk : q.1 with
      | num m =>
        have := h q (List.mem_cons_self q t) m hk
        rw [hk] at he
        cases he
        omega
      | negInf => rw [hk] at he; cases he
      | nan => rw [hk] at he; cases he
    simp only [fdFind, if_neg hq]
    exact ih (fun x hx => h x (List.mem_cons_of_mem q hx))

theorem fdFind_fresh (tbl : FdTable) :
    fdFind tbl (.num (maxNumKey tbl + 1)) = none := by
  apply fdFind_none_of_all_lt
  intro q hq m hm
  have hmem : m ∈ tbl.filterMap (fun q => q.1.parsed) :=
    List.mem_filterMap.mpr ⟨q, hq, by rw [hm]; rfl⟩
  have := mem_le_foldl_max 0 hmem
  simp only [maxNumKey]
  omega

theorem dirname_basename {path : Path} (h : path ≠ []) :
    dirnameP path ++ [basenameP path] = path := by
  induction path using List.reverseRecOn with
  | nil => exact absurd rfl h
  | append_singleton as a _ =>
    simp [dirnameP, basenameP, List.dropLast_concat, List.getLast?_concat]

theorem or7_and : ∀ a < 8, ∀ b < 8,
    (((a ||| b ||| 7) &&& 2 ≠ 0) ∧ ((a ||| b ||| 7) &&& 4 ≠ 0) : Prop) := by
  decide

theorem isPermitted_0777 (uid gid r : Nat) (hr : r = 2 ∨ r = 4) :
    isPermitted ⟨0, 0, 0o777, false, .regular []⟩ uid gid r = true := by
  simp only [isPermitted, decide_eq_true_eq]
  rcases hr with rfl | rfl <;> split <;> split <;> decide

/-- Claim C3: when open carries the WRITE flag and the path lookup fails with
NotFound, write permission on the parent directory is required; with a
writable parent a zero-length regular file is created there and a valid fresh
descriptor is returned; with a non-writable parent the call fails with
AccessDenied and the state is unchanged. The success case assumes a
well-formed process: a non-empty descriptor table with numeric keys, an
existing per-process descriptor directory distinct from the parent of the new
file, and a free slot for the published descriptor symlink. -/
theorem c3_open_creates_on_write :
    (∀ (p : Proc) (path : Path) (flags : Nat) (pe de : Entry),
      path ≠ [] →
      fsFind p.fs path = none →
      flags &&& OpenFlag.WRITE ≠ 0 →
      fsFind p.fs (dirnameP path) = some pe →
      pe.isDirectory = true →
      isPermitted pe p.uid p.gid 0o2 = true →
      fsFind p.fs (procFdDir p.id) = some de →
      de.isDirectory = true →
      dirnameP path ≠ procFdDir p.id →
      fsFind p.fs (procFdDir p.id ++ [(FdKey.num (maxNumKey p.fd + 1)).name]) = none →
      p.fd ≠ [] →
      (∀ q ∈ p.fd, q.1.parsed ≠ none) →
      openFile p path flags =
        ({ p with
            fs := (procFdDir p.id ++ [(FdKey.num (maxNumKey p.fd + 1)).name],
                    ⟨0, 0, 0o700, false, .symlink path⟩) ::
                  (path, ⟨0, 0, 0o777, false, .regular []⟩) :: p.fs,
            fd := fdSet p.fd (.num (maxNumKey p.fd + 1)) ⟨path, flags, 0⟩ },
         .ok (.num (maxNumKey p.fd + 1))) ∧
      fsFind (openFile p path flags).1.fs path = some ⟨0, 0, 0o777, false, .regular []⟩ ∧
      fdFind p.fd (.num (maxNumKey p.fd + 1)) = none ∧
      fdFind (openFile p path flags).1.fd (.num (maxNumKey p.fd + 1)) =
        some ⟨path, flags, 0⟩) ∧
    (∀ (p : Proc) (path : Path) (flags : Nat) (pe : Entry),
      fsFind p.fs path = none →
      flags &&& OpenFlag.WRITE ≠ 0 →
      fsFind p.fs (dirnameP path) = some pe →
      isPermitted pe p.uid p.gid 0o2 = false →
      openFile p path flags = (p, .error .EACCES)) := by
  constructor
  · intro p path flags pe de hne0 hmiss hflags hparent hpedir hperm hprocdir hde hnedir
      hfree htbl hnum
    have hdb : dirnameP path ++ [basenameP path] = path := dirname_basename hne0
    have hkey : nextFdKey p.fd = .num (maxNumKey p.fd + 1) := nextFdKey_allNum htbl hnum
    have hppne : path ≠ procFdDir p.id := by
      intro h
      rw [h, hprocdir] at hmiss
      cases hmiss
    have hlinkne : path ≠ procFdDir p.id ++ [(FdKey.num (maxNumKey p.fd + 1)).name] := by
      intro h
      apply hnedir
      have := congrArg List.dropLast h
      rw [← hdb, List.dropLast_concat, List.dropLast_concat] at this
      exact this
    have hopen : openFile p path flags =
        ({ p with
            fs := (procFdDir p.id ++ [(FdKey.num (maxNumKey p.fd + 1)).name],
                    ⟨0, 0, 0o700, false, .symlink path⟩) ::
                  (path, ⟨0, 0, 0o777, false, .regular []⟩) :: p.fs,
            fd := fdSet p.fd (.num (maxNumKey p.fd + 1)) ⟨path, flags, 0⟩ },
         .ok (.num (maxNumKey p.fd + 1))) := by
      have hgetmiss : fsGet p.fs false LINK_FUEL path = .error .ENOENT := by
        rw [LINK_FUEL_succ]; exact fsGet_none_of_find 39 hmiss
      have hgetparent : fsGet p.fs false LINK_FUEL (dirnameP path) = .ok (dirnameP path, pe) := by
        rw [LINK_FUEL_succ]; exact fsGet_false_of_find 39 hparent
      have hcreate1 : fsCreate p.fs (dirnameP path) (basenameP path)
          ⟨0, 0, 0o777, false, .regular []⟩ =
          .ok ((path, ⟨0, 0, 0o777, false, .regular []⟩) :: p.fs) := by
        simp [fsCreate, hparent, hpedir, hdb, hmiss]
      have hget2 : fsGet ((path, ⟨0, 0, 0o777, false, .regular []⟩) :: p.fs) true LINK_FUEL path =
          .ok (path, ⟨0, 0, 0o777, false, .regular []⟩) := by
        rw [LINK_FUEL_succ]
        exact fsGet_true_of_find_nonlink 39 fsFind_cons_self rfl
      have hcreate2 : fsCreate ((path, ⟨0, 0, 0o777, false, .regular []⟩) :: p.fs)
          (procFdDir p.id) (FdKey.num (maxNumKey p.fd + 1)).name
          ⟨0, 0, 0o700, false, .symlink path⟩ =
          .ok ((procFdDir p.id ++ [(FdKey.num (maxNumKey p.fd + 1)).name],
                ⟨0, 0, 0o700, false, .symlink path⟩) ::
               (path, ⟨0, 0, 0o777, false, .regular []⟩) :: p.fs) := by
        simp [fsCreate, fsFind_cons_ne hppne, hprocdir, hde, fsFind_cons_ne hlinkne, hfree]
      simp only [openFile, resolvePath, hgetmiss, hgetparent, hcreate1, hget2, hcreate2,
        createFileDescriptor, hkey, hperm, Entry.isDirectory,
        Bool.true_eq_false, if_false]
      rw [if_pos (show _ ∧ _ from ⟨hflags, trivial⟩), if_neg (by simp [hperm])]
      rw [if_neg (fun hc => by simpa [isPermitted_0777 p.uid p.gid 4 (.inr rfl)] using hc.2)]
      rw [if_neg (fun hc => by simpa [isPermitted_0777 p.uid p.gid 2 (.inl rfl)] using hc.2)]
    refine ⟨hopen, ?_, fdFind_fresh p.fd, ?_⟩
    · rw [hopen]
      exact (fsFind_cons_ne (Ne.symm hlinkne)).trans fsFind_cons_self
    · rw [hopen]
      exact fdFind_fdSet_self
  · intro p path flags pe hmiss hflags hparent hperm
    have hgetmiss : fsGet p.fs false LINK_FUEL path = .error .ENOENT := by
      rw [LINK_FUEL_succ]; exact fsGet_none_of_find 39 hmiss
    have hgetparent : fsGet p.fs false LINK_FUEL (dirnameP path) = .ok (dirnameP path, pe) := by
      rw [LINK_FUEL_succ]; exact fsGet_false_of_find 39 hparent
    simp only [openFile, resolvePath, hgetmiss, hgetparent]
    rw [if_pos (show _ ∧ _ from ⟨hflags, trivial⟩), if_pos hperm]

/-- Witness for claim C3: the create-on-write behaviour of open applied to a
concrete process with a writable parent directory. -/
theorem c3_open_creates_on_write_witness :
    openFile
      ⟨1, [(.num 0, ⟨["d"], 1, 0⟩)],
        [([], ⟨0, 0, 0o755, false, .directory⟩),
         (["proc"], ⟨0, 0, 0o755, false, .directory⟩),
         (["proc", "1"], ⟨0, 0, 0o755, false, .directory⟩),
         (["proc", "1", "fd"], ⟨0, 0, 0o700, false, .directory⟩),
         (["d"], ⟨0, 0, 0o777, false, .directory⟩)],
        9, 9, none⟩ ["d", "x"] 2 =
      ({ id := 1,
         fd := fdSet [(.num 0, ⟨["d"], 1, 0⟩)]
           (.num (maxNumKey [(.num 0, ⟨["d"], 1, 0⟩)] + 1)) ⟨["d", "x"], 2, 0⟩,
         fs := (procFdDir 1 ++ [(FdKey.num (maxNumKey [(.num 0, ⟨["d"], 1, 0⟩)] + 1)).name],
                 ⟨0, 0, 0o700, false, .symlink ["d", "x"]⟩) ::
               (["d", "x"], ⟨0, 0, 0o777, false, .regular []⟩) ::
               [([], ⟨0, 0, 0o755, false, .directory⟩),
                (["proc"], ⟨0, 0, 0o755, false, .directory⟩),
                (["proc", "1"], ⟨0, 0, 0o755, false, .directory⟩),
                (["proc", "1", "fd"], ⟨0, 0, 0o700, false, .directory⟩),
                (["d"], ⟨0, 0, 0o777, false, .directory⟩)],
         uid := 9, gid := 9, pwd := none },
       .ok (.num (maxNumKey [(.num 0, ⟨["d"], 1, 0⟩)] + 1))) :=
  (c3_open_creates_on_write.1
    ⟨1, [(.num 0, ⟨["d"], 1, 0⟩)],
      [([], ⟨0, 0, 0o755, false, .directory⟩),
       (["proc"], ⟨0, 0, 0o755, false, .directory⟩),
       (["proc", "1"], ⟨0, 0, 0o755, false, .directory⟩),
       (["proc", "1", "fd"], ⟨0, 0, 0o700, false, .directory⟩),
       (["d"], ⟨0, 0, 0o777, false, .directory⟩)],
      9, 9, none⟩ ["d", "x"] 2
    ⟨0, 0, 0o777, false, .directory⟩ ⟨0, 0, 0o700, false, .directory⟩
    (by simp) rfl (by decide) rfl rfl (by decide) rfl rfl (by decide) rfl
    (by simp) (by decide)).1

/-- Counterexample for claim C4: on a process whose table only holds
descriptor 0, closing the unknown handle 5 fails with ENOENT coming from the
unlink of the missing descriptor symlink, not with EBADFD as claimed. -/
theorem c4_close_unknown_counterexample :
    fdFind [(FdKey.num 0, (⟨["f"], 1, 0⟩ : FdData))] (.num 5) = none ∧
    (close
      ⟨1, [(.num 0, ⟨["f"], 1, 0⟩)],
        [([], ⟨0, 0, 0o755, false, .directory⟩),
         (["proc"], ⟨0, 0, 0o755, false, .directory⟩),
         (["proc", "1"], ⟨0, 0, 0o755, false, .directory⟩),
         (["proc", "1", "fd"], ⟨0, 0, 0o700, false, .directory⟩),
         (["proc", "1", "fd", "0"], ⟨0, 0, 0o700, false, .symlink ["f"]⟩),
         (["f"], ⟨0, 0, 0o644, false, .regular [1]⟩)],
        0, 0, none⟩ (.num 5)).2 = .error .ENOENT ∧
    (close
      ⟨1, [(.num 0, ⟨["f"], 1, 0⟩)],
        [([], ⟨0, 0, 0o755, false, .directory⟩),
         (["proc"], ⟨0, 0, 0o755, false, .directory⟩),
         (["proc", "1"], ⟨0, 0, 0o755, false, .directory⟩),
         (["proc", "1", "fd"], ⟨0, 0, 0o700, false, .directory⟩),
         (["proc", "1", "fd", "0"], ⟨0, 0, 0o700, false, .symlink ["f"]⟩),
         (["f"], ⟨0, 0, 0o644, false, .regular [1]⟩)],
        0, 0, none⟩ (.num 5)).2 ≠ .error .EBADFD := by
  refine ⟨rfl, rfl, ?_⟩
  intro h
  rw [show (close
      ⟨1, [(.num 0, ⟨["f"], 1, 0⟩)],
        [([], ⟨0, 0, 0o755, false, .directory⟩),
         (["proc"], ⟨0, 0, 0o755, false, .directory⟩),
         (["proc", "1"], ⟨0, 0, 0o755, false, .directory⟩),
         (["proc", "1", "fd"], ⟨0, 0, 0o700, false, .directory⟩),
         (["proc", "1", "fd", "0"], ⟨0, 0, 0o700, false, .symlink ["f"]⟩),
         (["f"], ⟨0, 0, 0o644, false, .regular [1]⟩)],
        0, 0, none⟩ (.num 5)).2 = Except.error Err.ENOENT from rfl] at h
  injection h with h2
  cases h2

/-- Claim C4 as amended: close on an unknown handle whose descriptor symlink
is also absent fails with ENOENT (the unlink of the missing
descriptor-directory entry), not EBADFD; close on a valid handle whose
descriptor symlink exists removes that directory entry and deletes the table
slot; and read, write and seek on a handle whose slot is empty all fail with
EBADFD. -/
theorem c4_close_amended :
    (∀ (p : Proc) (k : FdKey),
      fdFind p.fd k = none →
      fsFind p.fs (procFdDir p.id ++ [k.name]) = none →
      close p k = (p, .error .ENOENT)) ∧
    (∀ (p : Proc) (k : FdKey) (fdd : FdData) (le : Entry),
      fdFind p.fd k = some fdd →
      fsFind p.fs (procFdDir p.id ++ [k.name]) = some le →
      le.isDirectory = false →
      fsHasChild p.fs (procFdDir p.id ++ [k.name]) = false →
      (close p k).2 = .ok () ∧
      (close p k).1.fd = fdRemove p.fd k ∧
      fdFind (close p k).1.fd k = none ∧
      fsFind (close p k).1.fs (procFdDir p.id ++ [k.name]) = none) ∧
    (∀ (p : Proc) (k : FdKey) (count : Option Nat) (buf : List Nat) (off : Nat),
      fdFind p.fd k = none →
      (read p k count).2 = .error .EBADFD ∧
      (write p k buf count).2 = .error .EBADFD ∧
      (seek p k off).2 = .error .EBADFD) := by
  refine ⟨?_, ?_, ?_⟩
  · intro p k _hk hfs
    have h1 : unlink p (procFdDir p.id ++ [k.name]) 0 = (p, .error .ENOENT) := by
      simp only [unlink, resolvePath]
      rw [LINK_FUEL_succ, fsGet_none_of_find 39 hfs]
    simp [close, h1]
  · intro p k fdd le hk hfs hdir hnc
    have hget : fsGet p.fs false LINK_FUEL (procFdDir p.id ++ [k.name]) =
        .ok (procFdDir p.id ++ [k.name], le) := by
      rw [LINK_FUEL_succ]; exact fsGet_false_of_find 39 hfs
    have hdel : fsDelete p.fs (procFdDir p.id ++ [k.name]) false =
        .ok (p.fs.filter (delPredOne (procFdDir p.id ++ [k.name]))) := by
      simp [fsDelete, hfs, hnc]
    have h1 : unlink p (procFdDir p.id ++ [k.name]) 0 =
        ({ p with fs := p.fs.filter (delPredOne (procFdDir p.id ++ [k.name])) }, .ok ()) := by
      simp only [unlink, resolvePath, hget]
      rw [if_neg (by decide)]
      simp only [hdir, Bool.false_eq_true, if_false, hdel]
    have hc : close p k =
        ({ p with fs := p.fs.filter (delPredOne (procFdDir p.id ++ [k.name])),
                  fd := fdRemove p.fd k }, .ok ()) := by
      simp [close, h1]
    refine ⟨by rw [hc], by rw [hc], ?_, ?_⟩
    · rw [hc]; exact fdFind_fdRemove_self
    · rw [hc]
      exact fsFind_filter_none (fun e => by simp [delPredOne])
  · intro p k count buf off hk
    refine ⟨?_, ?_, ?_⟩
    · simp [read, requireFdData, hk]
    · simp [write, requireFdData, hk]
    · simp [seek, requireFdData, hk]

/-- Witness for the amended claim C4: the valid-handle branch applied to a
concrete process, together with the EBADFD branch at the emptied slot. -/
theorem c4_close_amended_witness :
    (close
      ⟨1, [(.num 0, ⟨["f"], 1, 0⟩)],
        [([], ⟨0, 0, 0o755, false, .directory⟩),
         (["proc", "1", "fd"], ⟨0, 0, 0o700, false, .directory⟩),
         (["proc", "1", "fd", "0"], ⟨0, 0, 0o700, false, .symlink ["f"]⟩),
         (["f"], ⟨0, 0, 0o644, false, .regular [1]⟩)],
        0, 0, none⟩ (.num 0)).2 = .ok () ∧
    (read
      ⟨1, [], [([], ⟨0, 0, 0o755, false, .directory⟩)], 0, 0, none⟩
      (.num 0) none).2 = .error .EBADFD :=
  ⟨(c4_close_amended.2.1
      ⟨1, [(.num 0, ⟨["f"], 1, 0⟩)],
        [([], ⟨0, 0, 0o755, false, .directory⟩),
         (["proc", "1", "fd"], ⟨0, 0, 0o700, false, .directory⟩),
         (["proc", "1", "fd", "0"], ⟨0, 0, 0o700, false, .symlink ["f"]⟩),
         (["f"], ⟨0, 0, 0o644, false, .regular [1]⟩)],
        0, 0, none⟩ (.num 0) ⟨["f"], 1, 0⟩ ⟨0, 0, 0o700, false, .symlink ["f"]⟩
      rfl rfl rfl rfl).1,
   (c4_close_amended.2.2
      ⟨1, [], [([], ⟨0, 0, 0o755, false, .directory⟩)], 0, 0, none⟩
      (.num 0) none [] 0 rfl).1⟩

theorem fsHasChild_recFilter (fs : FS) (p : Path) :
    fsHasChild (fs.filter (delPredRec p)) p = false := by
  rw [Bool.eq_false_iff]
  intro h
  obtain ⟨q, hq, hcond⟩ := List.any_eq_true.mp h
  obtain ⟨hmem, hkeep⟩ := List.mem_filter.mp hq
  rw [Bool.and_eq_true, decide_eq_true_eq, decide_eq_true_eq] at hcond
  simp only [delPredRec, Bool.not_eq_true', Bool.or_eq_false_iff, Bool.and_eq_false_iff,
    decide_eq_false_iff_not] at hkeep
  rcases hkeep.2 with h1 | h2
  · exact h1 hcond.1
  · exact h2 hcond.2

/-- Counterexample for claim C5: a descriptor stores the pathname of a
symbolic link; stat resolves the link, but fstat reports the link entry
itself, contradicting the claim that fstat fully resolves symbolic links. -/
theorem c5_fstat_counterexample :
    stat
      ⟨1, [(.num 0, ⟨["l"], 1, 0⟩)],
        [([], ⟨0, 0, 0o755, false, .directory⟩),
         (["a"], ⟨1, 2, 0o644, false, .regular [7]⟩),
         (["l"], ⟨3, 4, 0o777, false, .symlink ["a"]⟩)],
        0, 0, none⟩ ["l"] = .ok (statOf ⟨1, 2, 0o644, false, .regular [7]⟩) ∧
    fstat
      ⟨1, [(.num 0, ⟨["l"], 1, 0⟩)],
        [([], ⟨0, 0, 0o755, false, .directory⟩),
         (["a"], ⟨1, 2, 0o644, false, .regular [7]⟩),
         (["l"], ⟨3, 4, 0o777, false, .symlink ["a"]⟩)],
        0, 0, none⟩ (.num 0) = .ok (statOf ⟨3, 4, 0o777, false, .symlink ["a"]⟩) ∧
    statOf (⟨3, 4, 0o777, false, .symlink ["a"]⟩ : Entry) ≠
      statOf (⟨1, 2, 0o644, false, .regular [7]⟩ : Entry) := by
  refine ⟨rfl, rfl, ?_⟩
  intro h
  have := congrArg Stat.owner h
  simp [statOf] at this

/-- Claim C5 as amended: stat fully resolves a terminal symbolic link before
reporting mode with the type bits ORed in, owner, group and size; lstat never
follows a terminal symbolic link; and fstat also does not follow a terminal
symbolic link: it reports the entry found at the stored pathname of the
descriptor, the link entry itself. -/
theorem c5_stat_family_amended :
    (∀ (p : Proc) (path t : Path) (l e : Entry),
      fsFind p.fs path = some l → l.node = .symlink t →
      fsFind p.fs t = some e → e.isSymbolicLink = false →
      stat p path = .ok (statOf e)) ∧
    (∀ (p : Proc) (path t : Path) (l : Entry),
      fsFind p.fs path = some l → l.node = .symlink t →
      lstat p path = .ok (statOf l)) ∧
    (∀ (p : Proc) (k : FdKey) (fdd : FdData) (t : Path) (l : Entry),
      fdFind p.fd k = some fdd →
      fsFind p.fs fdd.pathname = some l → l.node = .symlink t →
      fstat p k = .ok (statOf l)) ∧
    (∀ e : Entry, (statOf e).owner = e.owner ∧ (statOf e).group = e.group ∧
      (statOf e).size = 0 ∧
      (e.isSymbolicLink = true → (statOf e).mode = e.mode ||| StatMode.IFLNK) ∧
      (e.isRegularFile = true → (statOf e).mode = e.mode ||| StatMode.IFREG)) := by
  refine ⟨?_, ?_, ?_, ?_⟩
  · intro p path t l e hl ht he hns
    have : fsGet p.fs true LINK_FUEL path = .ok (t, e) := by
      rw [show LINK_FUEL = 38 + 2 from rfl]
      exact fsGet_true_one_hop 38 hl ht he hns
    simp [stat, resolvePath, this, Except.map]
  · intro p path t l hl ht
    have : fsGet p.fs false LINK_FUEL path = .ok (path, l) := by
      rw [LINK_FUEL_succ]; exact fsGet_false_of_find 39 hl
    simp [lstat, resolvePath, this, Except.map]
  · intro p k fdd t l hk hl ht
    have : fsGet p.fs false LINK_FUEL fdd.pathname = .ok (fdd.pathname, l) := by
      rw [LINK_FUEL_succ]; exact fsGet_false_of_find 39 hl
    simp [fstat, requireFdData, hk, resolvePath, this, Except.map]
  · intro e
    refine ⟨rfl, rfl, rfl, ?_, ?_⟩ <;>
      · intro h
        cases hn : e.node <;>
          simp [statOf, Entry.isDirectory, Entry.isRegularFile, Entry.isDeviceFile,
            Entry.isSymbolicLink, hn, StatMode.IFLNK, StatMode.IFREG] <;>
          simp [Entry.isSymbolicLink, Entry.isRegularFile, hn] at h

/-- Witness for the amended claim C5: the three stat variants applied to a
concrete state holding a symbolic link. -/
theorem c5_stat_family_amended_witness :
    lstat
      ⟨1, [(.num 0, ⟨["l"], 1, 0⟩)],
        [([], ⟨0, 0, 0o755, false, .directory⟩),
         (["a"], ⟨1, 2, 0o644, false, .regular [7]⟩),
         (["l"], ⟨3, 4, 0o777, false, .symlink ["a"]⟩)],
        0, 0, none⟩ ["l"] = .ok (statOf ⟨3, 4, 0o777, false, .symlink ["a"]⟩) :=
  c5_stat_family_amended.2.1
    ⟨1, [(.num 0, ⟨["l"], 1, 0⟩)],
      [([], ⟨0, 0, 0o755, false, .directory⟩),
       (["a"], ⟨1, 2, 0o644, false, .regular [7]⟩),
       (["l"], ⟨3, 4, 0o777, false, .symlink ["a"]⟩)],
      0, 0, none⟩ ["l"] ["a"] ⟨3, 4, 0o777, false, .symlink ["a"]⟩ rfl rfl

/-- Claim C6: the child created by spawn is constructed with the fresh pid and
the callers filesystem session and environment, but the constructor then
forces this.uid = 0 and this.gid = 0 (lines 115-116), discarding the uid and
gid fields spawn passed in the init record, so a caller with uid 5 and gid 7
gets a child running as 0/0 instead of inheriting its identity. -/
theorem c6_spawn_identity :
    (∀ init : ProcessInit, (mkProcess init).uid = 0 ∧ (mkProcess init).gid = 0) ∧
    (∀ (parent : Proc) (newPid : Nat),
      (spawnChildBase parent newPid).uid = 0 ∧
      (spawnChildBase parent newPid).gid = 0 ∧
      (spawnChildBase parent newPid).id = newPid ∧
      (spawnChildBase parent newPid).fs = parent.fs ∧
      (spawnChildBase parent newPid).pwd = parent.pwd ∧
      (spawnChildBase parent newPid).fd = [] ∧
      (spawnInit parent newPid).uid = parent.uid ∧
      (spawnInit parent newPid).gid = parent.gid) ∧
    ((spawnChildBase ⟨1, [(.num 0, ⟨["f"], 1, 0⟩)], [], 5, 7, none⟩ 2).uid = 0 ∧
     (spawnChildBase ⟨1, [(.num 0, ⟨["f"], 1, 0⟩)], [], 5, 7, none⟩ 2).gid = 0 ∧
     (⟨1, [(.num 0, ⟨["f"], 1, 0⟩)], [], 5, 7, none⟩ : Proc).uid = 5 ∧
     (⟨1, [(.num 0, ⟨["f"], 1, 0⟩)], [], 5, 7, none⟩ : Proc).gid = 7) :=
  ⟨fun _ => ⟨rfl, rfl⟩,
   fun _ _ => ⟨rfl, rfl, rfl, rfl, rfl, rfl, rfl, rfl⟩,
   rfl, rfl, rfl, rfl⟩

/-- Counterexample for claim C7: unlink with the remove-directory flag on an
existing empty directory does remove it, but the call then fails with ENOENT
instead of succeeding, because the implementation falls through to a second
non-recursive delete of the same pathname. -/
theorem c7_unlink_counterexample :
    (unlink
      ⟨1, [], [([], ⟨0, 0, 0o755, false, .directory⟩),
               (["d"], ⟨0, 0, 0o755, false, .directory⟩)], 0, 0, none⟩
      ["d"] UnlinkFlag.REMOVE_DIR).2 = .error .ENOENT ∧
    (unlink
      ⟨1, [], [([], ⟨0, 0, 0o755, false, .directory⟩),
               (["d"], ⟨0, 0, 0o755, false, .directory⟩)], 0, 0, none⟩
      ["d"] UnlinkFlag.REMOVE_DIR).2 ≠ .ok () ∧
    fsFind (unlink
      ⟨1, [], [([], ⟨0, 0, 0o755, false, .directory⟩),
               (["d"], ⟨0, 0, 0o755, false, .directory⟩)], 0, 0, none⟩
      ["d"] UnlinkFlag.REMOVE_DIR).1.fs ["d"] = none := by
  refine ⟨rfl, ?_, rfl⟩
  intro h
  rw [show (unlink
      ⟨1, [], [([], ⟨0, 0, 0o755, false, .directory⟩),
               (["d"], ⟨0, 0, 0o755, false, .directory⟩)], 0, 0, none⟩
      ["d"] UnlinkFlag.REMOVE_DIR).2 = Except.error Err.ENOENT from rfl] at h
  cases h

/-- Claim C7 as amended: with the remove-directory flag a non-directory
target is rejected with NotADirectory, and a directory target has itself and
its contents removed but the call then fails with NotFound, because a second
non-recursive delete of the same pathname runs after the recursive one;
without the flag a directory target is rejected with IsADirectory and a
non-directory entry is removed. -/
theorem c7_unlink_amended :
    (∀ (p : Proc) (path : Path) (e : Entry),
      fsFind p.fs path = some e → e.isDirectory = false →
      unlink p path UnlinkFlag.REMOVE_DIR = (p, .error .ENOTDIR)) ∧
    (∀ (p : Proc) (path : Path) (e : Entry),
      fsFind p.fs path = some e → e.isDirectory = true →
      (unlink p path UnlinkFlag.REMOVE_DIR).2 = .error .ENOENT ∧
      (unlink p path UnlinkFlag.REMOVE_DIR).1.fs = p.fs.filter (delPredRec path) ∧
      fsFind (unlink p path UnlinkFlag.REMOVE_DIR).1.fs path = none ∧
      fsHasChild (unlink p path UnlinkFlag.REMOVE_DIR).1.fs path = false) ∧
    (∀ (p : Proc) (path : Path) (e : Entry),
      fsFind p.fs path = some e → e.isDirectory = true →
      unlink p path 0 = (p, .error .EISDIR)) ∧
    (∀ (p : Proc) (path : Path) (e : Entry),
      fsFind p.fs path = some e → e.isDirectory = false →
      fsHasChild p.fs path = false →
      unlink p path 0 = ({ p with fs := p.fs.filter (delPredOne path) }, .ok ()) ∧
      fsFind (p.fs.filter (delPredOne path)) path = none) := by
  have hget : ∀ (p : Proc) (path : Path) (e : Entry), fsFind p.fs path = some e →
      fsGet p.fs false LINK_FUEL path = .ok (path, e) := by
    intro p path e h
    rw [LINK_FUEL_succ]; exact fsGet_false_of_find 39 h
  refine ⟨?_, ?_, ?_, ?_⟩
  · intro p path e he hdir
    simp only [unlink, resolvePath, hget p path e he]
    rw [if_pos (by decide)]
    simp [hdir]
  · intro p path e he hdir
    have hdel1 : fsDelete p.fs path true = .ok (p.fs.filter (delPredRec path)) := by
      simp [fsDelete, he]
    have hfind2 : fsFind (p.fs.filter (delPredRec path)) path = none :=
      fsFind_filter_none (fun e => by simp [delPredRec])
    have hdel2 : fsDelete (p.fs.filter (delPredRec path)) path false = .error .ENOENT := by
      simp only [fsDelete, hfind2]
    have hu : unlink p path UnlinkFlag.REMOVE_DIR =
        ({ p with fs := p.fs.filter (delPredRec path) }, .error .ENOENT) := by
      simp only [unlink, resolvePath, hget p path e he]
      rw [if_pos (by decide)]
      simp only [hdir, Bool.true_eq_false, if_false, hdel1]
      simp [hdel2]
    rw [hu]
    exact ⟨rfl, rfl, hfind2, fsHasChild_recFilter p.fs path⟩
  · intro p path e he hdir
    simp only [unlink, resolvePath, hget p path e he]
    rw [if_neg (by decide)]
    simp [hdir]
  · intro p path e he hdir hnc
    have hdel : fsDelete p.fs path false = .ok (p.fs.filter (delPredOne path)) := by
      simp [fsDelete, he, hnc]
    constructor
    · simp only [unlink, resolvePath, hget p path e he]
      rw [if_neg (by decide)]
      simp [hdir, hdel]
    · exact fsFind_filter_none (fun e => by simp [delPredOne])

/-- Witness for the amended claim C7: the remove-directory branch applied to
a concrete process holding an empty directory. -/
theorem c7_unlink_amended_witness :
    (unlink
      ⟨1, [], [([], ⟨0, 0, 0o755, false, .directory⟩),
               (["d"], ⟨0, 0, 0o755, false, .directory⟩)], 0, 0, none⟩
      ["d"] UnlinkFlag.REMOVE_DIR).2 = .error .ENOENT :=
  (c7_unlink_amended.2.1
    ⟨1, [], [([], ⟨0, 0, 0o755, false, .directory⟩),
             (["d"], ⟨0, 0, 0o755, false, .directory⟩)], 0, 0, none⟩
    ["d"] ⟨0, 0, 0o755, false, .directory⟩ rfl rfl).1

theorem bell_backward (s : RSt) : (bell s).backward = s.backward := by
  unfold bell; split <;> rfl

theorem bell_forward (s : RSt) : (bell s).forward = s.forward := by
  unfold bell; split <;> rfl

theorem bell_chars (s : RSt) : (bell s).chars = s.chars := by
  unfold bell; split <;> rfl

theorem bell_ended (s : RSt) : (bell s).ended = s.ended := by
  unfold bell; split <;> rfl

theorem bell_crashed (s : RSt) : (bell s).crashed = s.crashed := by
  unfold bell; split <;> rfl

theorem bell_resp (s : RSt) :
    (bell s).resp = if '\x07' ∈ s.resp then s.resp else s.resp ++ ['\x07'] := by
  unfold bell; split <;> simp_all

theorem dropLast_append_of_getLast {l : List Char} {c : Char} (h : l.getLast? = some c) :
    l.dropLast ++ [c] = l := by
  rcases List.eq_nil_or_concat l with rfl | ⟨as, a, rfl⟩
  · simp at h
  · simp only [List.concat_eq_append, List.getLast?_concat] at h ⊢
    cases h
    simp

theorem execCommand_concat (cmd : Char) (s : RSt) :
    (execCommand cmd s).backward ++ (execCommand cmd s).forward =
      s.backward ++ s.forward := by
  unfold execCommand
  split
  · rfl
  split
  · rename_i h1 h2
    cases hf : s.forward with
    | nil => simp [bell_backward, bell_forward, hf]
    | cons c rest =>
      by_cases hj : jsDotMatch c = true
      · simp [hj, wr, hf]
      · simp [hj, hf]
  split
  · rename_i h1 h2 h3
    cases hb : s.backward.getLast? with
    | none => simp [bell_backward, bell_forward]
    | some c =>
      by_cases hj : jsDotMatch c = true
      · simp only [hj, if_true, wr]
        show s.backward.dropLast ++ c :: s.forward = s.backward ++ s.forward
        conv_rhs => rw [← dropLast_append_of_getLast hb]
        simp
      · simp [hj]
  split
  · split
    · simp [bell_backward, bell_forward]
    · simp [wr]
  split
  · split
    · simp [bell_backward, bell_forward]
    · simp [wr]
  rfl

theorem execCommand_chars (cmd : Char) (s : RSt) :
    (execCommand cmd s).chars = s.chars := by
  unfold execCommand
  repeat' split
  all_goals simp [bell_chars, wr]

theorem execCommand_ended (cmd : Char) (s : RSt) :
    (execCommand cmd s).ended = s.ended := by
  unfold execCommand
  repeat' split
  all_goals simp [bell_ended, wr]

theorem readChar_plain {s : RSt} {c : Char} {rest : List Char} (fuel : Nat) (push : Bool)
    (hcr : s.crashed = false) (hch : s.chars = c :: rest)
    (h1 : ¬(c = '\x7F' ∨ c = '\x08')) (h2 : c ≠ '\x1B') (h3 : c ≠ '\n') :
    readChar (fuel + 1) push s =
      (some c,
        if push then wr { s with chars := rest, backward := s.backward ++ [c] } [c]
        else { s with chars := rest }) := by
  simp only [readChar, hcr, Bool.false_eq_true, if_false, hch]
  rw [if_neg h1, if_neg h2, if_neg h3]

theorem paramChar_plain {q : Char} (hq : isParamChar q) :
    ¬(q = '\x7F' ∨ q = '\x08') ∧ q ≠ '\x1B' ∧ q ≠ '\n' := by
  rcases hq with rfl | ⟨h1, h2⟩
  · exact ⟨by decide, by decide, by decide⟩
  · refine ⟨?_, ?_, ?_⟩
    · rintro (rfl | rfl) <;> revert h1 h2 <;> decide
    · rintro rfl; revert h1 h2; decide
    · rintro rfl; revert h1 h2; decide

theorem readChar_succ (fuel : Nat) (push : Bool) (s : RSt) :
    readChar (fuel + 1) push s =
      (if s.crashed then (none, s)
      else
        match s.chars with
        | [] => (none, s)
        | c :: rest =>
          let s0 := { s with chars := rest }
          if c = '\x7F' ∨ c = '\x08' then
            match s0.backward.getLast? with
            | none => (some c, bell s0)
            | some rc =>
              if jsDotMatch rc then
                (some c,
                  wr { s0 with backward := s0.backward.dropLast,
                               shift := s0.shift + utf16Len rc }
                    (escEcho (utf16Len rc) 'D'))
              else (some c, { s0 with crashed := true })
          else if c = '\x1B' then
            let r1 := readChar fuel false s0
            if r1.2.crashed then (some c, r1.2)
            else if r1.1 = some '[' then (some c, paramLoop fuel r1.2)
            else (some c, r1.2)
          else if c = '\n' then
            (some c, wr { s0 with ended := true } [c])
          else
            (some c, if push then wr { s0 with backward := s0.backward ++ [c] } [c] else s0)) := by
  rfl

theorem paramLoop_succ (fuel : Nat) (s : RSt) :
    paramLoop (fuel + 1) s =
      (if s.crashed then s
      else
        let r1 := readChar fuel false s
        match r1.1 with
        | none => r1.2
        | some c =>
          if r1.2.crashed then r1.2
          else if isParamChar c then paramLoop fuel r1.2
          else execCommand c r1.2) := by
  rfl

theorem paramLoop_spec : ∀ (params : List Char) (fuel : Nat) (s : RSt) (cmd : Char)
    (rest : List Char),
    s.crashed = false → params.length + 2 ≤ fuel →
    (∀ c ∈ params, isParamChar c) → ¬ isParamChar cmd →
    ¬(cmd = '\x7F' ∨ cmd = '\x08') → cmd ≠ '\x1B' → cmd ≠ '\n' →
    s.chars = params ++ cmd :: rest →
    paramLoop fuel s = execCommand cmd { s with chars := rest } := by
  intro params
  induction params with
  | nil =>
    intro fuel s cmd rest hcr hfuel hp hc1 hc2 hc3 hc4 hch
    obtain ⟨b, fw, en, rs, sh, ch, cr⟩ := s
    replace hcr : cr = false := hcr
    replace hch : ch = [] ++ cmd :: rest := hch
    subst hcr
    subst hch
    obtain ⟨f, rfl⟩ : ∃ f, fuel = f + 1 := ⟨fuel - 1, by omega⟩
    obtain ⟨g, rfl⟩ : ∃ g, f = g + 1 := ⟨f - 1, by omega⟩
    rw [paramLoop_succ, readChar_plain g false rfl rfl hc2 hc3 hc4]
    simp [hc1]
  | cons q qs ih =>
    intro fuel s cmd rest hcr hfuel hp hc1 hc2 hc3 hc4 hch
    have hq : isParamChar q := hp q (List.mem_cons_self q qs)
    obtain ⟨hq1, hq2, hq3⟩ := paramChar_plain hq
    obtain ⟨b, fw, en, rs, sh, ch, cr⟩ := s
    replace hcr : cr = false := hcr
    replace hch : ch = q :: (qs ++ cmd :: rest) := hch
    subst hcr
    subst hch
    obtain ⟨f, rfl⟩ : ∃ f, fuel = f + 1 := ⟨fuel - 1, by omega⟩
    obtain ⟨g, rfl⟩ : ∃ g, f = g + 1 := ⟨f - 1, by omega⟩
    rw [paramLoop_succ, readChar_plain g false rfl rfl hq1 hq2 hq3]
    have hrec := ih (g + 1) ⟨b, fw, en, rs, sh, qs ++ cmd :: rest, false⟩ cmd rest rfl
      (by simp only [List.length_cons] at hfuel; omega)
      (fun c hc => hp c (List.mem_cons_of_mem q hc)) hc1 hc2 hc3 hc4 rfl
    simp only [] at hrec
    simp [hq, hrec]

theorem readChar_escape (push : Bool) (fuel : Nat) (params : List Char) (cmd : Char)
    (rest : List Char) (s : RSt)
    (hcr : s.crashed = false) (hfuel : params.length + 3 ≤ fuel)
    (hp : ∀ c ∈ params, isParamChar c) (hc1 : ¬ isParamChar cmd)
    (hc2 : ¬(cmd = '\x7F' ∨ cmd = '\x08')) (hc3 : cmd ≠ '\x1B') (hc4 : cmd ≠ '\n')
    (hch : s.chars = '\x1B' :: '[' :: (params ++ cmd :: rest)) :
    readChar fuel push s = (some '\x1B', execCommand cmd { s with chars := rest }) := by
  obtain ⟨b, fw, en, rs, sh, ch, cr⟩ := s
  replace hcr : cr = false := hcr
  replace hch : ch = '\x1B' :: '[' :: (params ++ cmd :: rest) := hch
  subst hcr
  subst hch
  obtain ⟨f, rfl⟩ : ∃ f, fuel = f + 1 := ⟨fuel - 1, by omega⟩
  obtain ⟨g, rfl⟩ : ∃ g, f = g + 1 := ⟨f - 1, by omega⟩
  have h1 : readChar (g + 1) false ⟨b, fw, en, rs, sh, '[' :: (params ++ cmd :: rest), false⟩ =
      (some '[', ⟨b, fw, en, rs, sh, params ++ cmd :: rest, false⟩) := by
    rw [readChar_plain g false rfl rfl (by decide) (by decide) (by decide)]
    simp
  have h2 : paramLoop (g + 1) (⟨b, fw, en, rs, sh, params ++ cmd :: rest, false⟩ : RSt) =
      execCommand cmd ⟨b, fw, en, rs, sh, rest, false⟩ := by
    have := paramLoop_spec params (g + 1) ⟨b, fw, en, rs, sh, params ++ cmd :: rest, false⟩
      cmd rest rfl (by omega) hp hc1 hc2 hc3 hc4 rfl
    simpa using this
  rw [readChar_succ]
  simp [h1, h2]

theorem chars_mem : ∀ fuel : Nat,
    (∀ (push : Bool) (s : RSt) (x : Char), x ∈ (readChar fuel push s).2.chars → x ∈ s.chars) ∧
    (∀ (s : RSt) (x : Char), x ∈ (paramLoop fuel s).chars → x ∈ s.chars) := by
  intro fuel
  induction fuel with
  | zero => exact ⟨fun _ _ _ h => h, fun _ _ h => h⟩
  | succ f ih =>
    constructor
    · intro push s x hx
      by_cases hcr : s.crashed = true
      · rw [readChar_succ] at hx
        simpa [hcr] using hx
      · replace hcr : s.crashed = false := by simpa using hcr
        cases hch : s.chars with
        | nil =>
          rw [readChar_succ] at hx
          simp [hcr, hch] at hx
        | cons c rest =>
          rw [readChar_succ] at hx
          simp only [hcr, Bool.false_eq_true, if_false, hch] at hx
          split at hx
          · split at hx
            · simp only [bell_chars] at hx
              exact List.mem_cons_of_mem _ hx
            · split at hx
              · simp only [wr] at hx
                exact List.mem_cons_of_mem _ hx
              · exact List.mem_cons_of_mem _ hx
          · split at hx
            · split at hx
              · exact List.mem_cons_of_mem _ ((ih.1 false _ x) (by simpa using hx))
              · split at hx
                · exact List.mem_cons_of_mem _ ((ih.1 false _ x) (ih.2 _ x (by simpa using hx)))
                · exact List.mem_cons_of_mem _ ((ih.1 false _ x) (by simpa using hx))
            · split at hx
              · simp only [wr] at hx
                exact List.mem_cons_of_mem _ hx
              · split at hx
                · simp only [wr] at hx
                  exact List.mem_cons_of_mem _ hx
                · exact List.mem_cons_of_mem _ hx
    · intro s x hx
      by_cases hcr : s.crashed = true
      · rw [paramLoop_succ] at hx
        simpa [hcr] using hx
      · replace hcr : s.crashed = false := by simpa using hcr
        rw [paramLoop_succ] at hx
        simp only [hcr, Bool.false_eq_true, if_false] at hx
        split at hx
        · exact ih.1 false s x hx
        · split at hx
          · exact ih.1 false s x hx
          · split at hx
            · exact ih.1 false s x (ih.2 _ x hx)
            · rw [execCommand_chars] at hx
              exact ih.1 false s x hx

theorem ended_imp : ∀ fuel : Nat,
    (∀ (push : Bool) (s : RSt),
      (readChar fuel push s).2.ended = true → s.ended = true ∨ '\n' ∈ s.chars) ∧
    (∀ s : RSt, (paramLoop fuel s).ended = true → s.ended = true ∨ '\n' ∈ s.chars) := by
  intro fuel
  induction fuel with
  | zero => exact ⟨fun _ _ h => .inl h, fun _ h => .inl h⟩
  | succ f ih =>
    constructor
    · intro push s hx
      by_cases hcr : s.crashed = true
      · rw [readChar_succ] at hx
        simp [hcr] at hx
        exact .inl hx
      · replace hcr : s.crashed = false := by simpa using hcr
        cases hch : s.chars with
        | nil =>
          rw [readChar_succ] at hx
          simp [hcr, hch] at hx
          exact .inl hx
        | cons c rest =>
          rw [readChar_succ] at hx
          simp only [hcr, Bool.false_eq_true, if_false, hch] at hx
          split at hx
          · split at hx
            · exact .inl (by simpa [bell_ended] using hx)
            · split at hx
              · exact .inl (by simpa [wr] using hx)
              · exact .inl (by simpa using hx)
          · split at hx
            · split at hx
              · rcases ih.1 false _ (by simpa using hx) with h | h
                · exact .inl (by simpa using h)
                · exact .inr (List.mem_cons_of_mem _ (by simpa using h))
              · split at hx
                · rcases ih.2 _ (by simpa using hx) with h | h
                  · rcases ih.1 false _ h with h2 | h2
                    · exact .inl (by simpa using h2)
                    · exact .inr (List.mem_cons_of_mem _ (by simpa using h2))
                  · exact .inr (List.mem_cons_of_mem _
                      (by simpa using (chars_mem f).1 false _ '\n' h))
                · rcases ih.1 false _ (by simpa using hx) with h | h
                  · exact .inl (by simpa using h)
                  · exact .inr (List.mem_cons_of_mem _ (by simpa using h))
            · split at hx
              · rename_i hc
                subst hc
                exact .inr (List.mem_cons_self _ _)
              · split at hx
                · exact .inl (by simpa [wr] using hx)
                · exact .inl (by simpa using hx)
    · intro s hx
      by_cases hcr : s.crashed = true
      · rw [paramLoop_succ] at hx
        simp [hcr] at hx
        exact .inl hx
      · replace hcr : s.crashed = false := by simpa using hcr
        rw [paramLoop_succ] at hx
        simp only [hcr, Bool.false_eq_true, if_false] at hx
        split at hx
        · exact ih.1 false s hx
        · split at hx
          · exact ih.1 false s hx
          · split at hx
            · rcases ih.2 _ hx with h | h
              · exact ih.1 false s h
              · exact .inr ((chars_mem f).1 false s '\n' h)
            · rw [execCommand_ended] at hx
              exact ih.1 false s hx

theorem procLoop_succ (fuel : Nat) (s : RSt) :
    procLoop (fuel + 1) s =
      (if s.crashed then s
      else
        match s.chars with
        | [] => s
        | _ :: _ =>
          let s1 := (readChar (s.chars.length + 1) true s).2
          if s1.crashed then s1
          else if s1.ended then s1
          else procLoop fuel s1) := by
  rfl

theorem procLoop_ended : ∀ (fuel : Nat) (s : RSt),
    (procLoop fuel s).ended = true → s.ended = true ∨ '\n' ∈ s.chars := by
  intro fuel
  induction fuel with
  | zero => exact fun _ h => .inl h
  | succ f ih =>
    intro s hx
    by_cases hcr : s.crashed = true
    · rw [procLoop_succ] at hx
      simp [hcr] at hx
      exact .inl hx
    · replace hcr : s.crashed = false := by simpa using hcr
      cases hch : s.chars with
      | nil =>
        rw [procLoop_succ] at hx
        simp [hcr, hch] at hx
        exact .inl hx
      | cons c rest =>
        rw [procLoop_succ] at hx
        simp only [hcr, Bool.false_eq_true, if_false, hch] at hx
        split at hx
        · rcases (ended_imp _).1 true s (by simpa [hch] using hx) with h | h
          · exact .inl h
          · exact .inr (hch ▸ h)
        · split at hx
          · rcases (ended_imp _).1 true s (by simpa [hch] using hx) with h | h
            · exact .inl h
            · exact .inr (hch ▸ h)
          · rcases ih _ hx with h | h
            · rcases (ended_imp _).1 true s (by simpa [hch] using h) with h2 | h2
              · exact .inl h2
              · exact .inr (hch ▸ h2)
            · have h3 : '\n' ∈ s.chars :=
                (chars_mem _).1 true s '\n' (by simpa [hch] using h)
              exact .inr (hch ▸ h3)

theorem processCall_ended (ri : ReadInstanceState) (input : List Char) :
    (processCall ri input).1.hasEnded = true →
    ri.hasEnded = true ∨ '\n' ∈ normalizeInput input := by
  intro h
  simp only [processCall] at h
  split at h <;> exact procLoop_ended _ _ (by simpa using h)

theorem cdhf_side {cmd : Char} (h : cmd = 'C' ∨ cmd = 'D' ∨ cmd = 'H' ∨ cmd = 'F') :
    ¬ isParamChar cmd ∧ ¬(cmd = '\x7F' ∨ cmd = '\x08') ∧ cmd ≠ '\x1B' ∧ cmd ≠ '\n' := by
  rcases h with rfl | rfl | rfl | rfl <;>
    exact ⟨by decide, by decide, by decide, by decide⟩

/-- Claim C9: the cursor-motion escape commands C, D, H and F only move
characters between backward and forward, leaving the logical line
backward ++ forward unchanged (and consuming exactly the escape sequence);
the ended flag becomes true only through processing a newline character; and
the line accessor returns backward ++ forward. -/
theorem c9_cursor_motion_invariant :
    (∀ (push : Bool) (fuel : Nat) (s : RSt) (params : List Char) (cmd : Char)
        (rest : List Char),
      s.crashed = false → params.length + 3 ≤ fuel →
      (∀ c ∈ params, isParamChar c) →
      (cmd = 'C' ∨ cmd = 'D' ∨ cmd = 'H' ∨ cmd = 'F') →
      s.chars = '\x1B' :: '[' :: (params ++ cmd :: rest) →
      (readChar fuel push s).2.backward ++ (readChar fuel push s).2.forward =
        s.backward ++ s.forward ∧
      (readChar fuel push s).2.ended = s.ended ∧
      (readChar fuel push s).2.chars = rest) ∧
    (∀ (fuel : Nat) (push : Bool) (s : RSt),
      (readChar fuel push s).2.ended = true → s.ended = true ∨ '\n' ∈ s.chars) ∧
    (∀ (ri : ReadInstanceState) (input : List Char),
      (processCall ri input).1.hasEnded = true →
      ri.hasEnded = true ∨ '\n' ∈ normalizeInput input) ∧
    (∀ ri : ReadInstanceState, ri.line = ri.backward ++ ri.forward) := by
  refine ⟨?_, fun fuel push s => (ended_imp fuel).1 push s, processCall_ended, fun _ => rfl⟩
  intro push fuel s params cmd rest hcr hfuel hp hcmd hch
  obtain ⟨hc1, hc2, hc3, hc4⟩ := cdhf_side hcmd
  rw [readChar_escape push fuel params cmd rest s hcr hfuel hp hc1 hc2 hc3 hc4 hch]
  exact ⟨execCommand_concat cmd _, execCommand_ended cmd _, execCommand_chars cmd _⟩

/-- Witness for claim C9: the invariant applied to a concrete state whose
input is the sequence ESC [ 5 C. -/
theorem c9_cursor_motion_invariant_witness :
    (readChar 4 true ⟨['a'], ['b'], false, [], 0, ['\x1B', '[', '5', 'C'], false⟩).2.backward ++
      (readChar 4 true ⟨['a'], ['b'], false, [], 0, ['\x1B', '[', '5', 'C'], false⟩).2.forward =
      ['a'] ++ ['b'] :=
  (c9_cursor_motion_invariant.1 true 4 ⟨['a'], ['b'], false, [], 0, ['\x1B', '[', '5', 'C'], false⟩
    ['5'] 'C' [] rfl (by decide) (by decide) (.inl rfl) rfl).1

/-- Claim C10: the numeric and semicolon parameter bytes of an escape
sequence are consumed but never used: with any well-formed parameter string,
ESC [ params cmd behaves identically to ESC [ cmd for the cursor commands,
affecting neither the buffers nor the echo; C and D move exactly one
character between the buffers and H and F move the entire segment. -/
theorem c10_escape_params_ignored :
    (∀ (push : Bool) (f1 f2 : Nat) (s : RSt) (params : List Char) (cmd : Char)
        (rest : List Char),
      s.crashed = false → params.length + 3 ≤ f1 → 3 ≤ f2 →
      (∀ c ∈ params, isParamChar c) →
      (cmd = 'C' ∨ cmd = 'D' ∨ cmd = 'H' ∨ cmd = 'F') →
      readChar f1 push { s with chars := '\x1B' :: '[' :: (params ++ cmd :: rest) } =
        readChar f2 push { s with chars := '\x1B' :: '[' :: cmd :: rest }) ∧
    (∀ (s : RSt) (c : Char) (fs : List Char),
      s.forward = c :: fs → jsDotMatch c = true →
      (execCommand 'C' s).backward = s.backward ++ [c] ∧ (execCommand 'C' s).forward = fs) ∧
    (∀ (s : RSt) (c : Char) (bs : List Char),
      s.backward = bs ++ [c] → jsDotMatch c = true →
      (execCommand 'D' s).backward = bs ∧ (execCommand 'D' s).forward = c :: s.forward) ∧
    (∀ s : RSt, s.backward ≠ [] →
      (execCommand 'H' s).backward = [] ∧
      (execCommand 'H' s).forward = s.backward ++ s.forward) ∧
    (∀ s : RSt, s.forward ≠ [] →
      (execCommand 'F' s).backward = s.backward ++ s.forward ∧
      (execCommand 'F' s).forward = []) := by
  refine ⟨?_, ?_, ?_, ?_, ?_⟩
  · intro push f1 f2 s params cmd rest hcr hf1 hf2 hp hcmd
    obtain ⟨hc1, hc2, hc3, hc4⟩ := cdhf_side hcmd
    rw [readChar_escape push f1 params cmd rest _ (by simpa using hcr) hf1 hp hc1 hc2 hc3 hc4 rfl,
      readChar_escape push f2 [] cmd rest _ (by simpa using hcr) (by simpa using hf2)
        (by simp) hc1 hc2 hc3 hc4 rfl]
  · intro s c fs hf hj
    simp [execCommand, hf, hj, wr]
  · intro s c bs hb hj
    simp [execCommand, hb, List.getLast?_concat, hj, wr, List.dropLast_concat]
  · intro s hb
    simp [execCommand, hb, wr]
  · intro s hf
    simp [execCommand, hf, wr]

/-- Witness for claim C10: the parameter string 1;2 before a C command gives
the same result as the bare command at a concrete state. -/
theorem c10_escape_params_ignored_witness :
    readChar 6 true ⟨[], ['x'], false, [], 0, ['\x1B', '[', '1', ';', '2', 'C', 'y'], false⟩ =
      readChar 3 true ⟨[], ['x'], false, [], 0, ['\x1B', '[', 'C', 'y'], false⟩ :=
  c10_escape_params_ignored.1 true 6 3
    ⟨[], ['x'], false, [], 0, [], false⟩ ['1', ';', '2'] 'C' ['y']
    rfl (by decide) (by decide) (by decide) (.inl rfl)

/-- Claim C8: feeding a fresh ReadInstance the bytes a b DEL LF yields the
final line a, with the backspace echoing a cursor-left sequence and no bell;
and a backspace processed with backward empty leaves both buffers unchanged
and appends the bell marker only when the echo of the call does not already
contain one, so a call emits it exactly once however often the empty-buffer
case is hit. -/
theorem c8_backspace_behaviour :
    processCall ReadInstance.fresh ['a', 'b', '\x7F', '\n'] =
      (⟨['a'], [], true⟩,
       ['a', 'b'] ++ ['\x1B', '[', '1', 'D'] ++ ['\n', ' ', '\x1B', '[', '1', 'D'], false) ∧
    (processCall ReadInstance.fresh ['a', 'b', '\x7F', '\n']).1.line = ['a'] ∧
    '\x07' ∉ (processCall ReadInstance.fresh ['a', 'b', '\x7F', '\n']).2.1 ∧
    (∀ (fuel : Nat) (push : Bool) (s : RSt) (rest : List Char),
      s.crashed = false → s.backward = [] → s.chars = '\x7F' :: rest →
      readChar (fuel + 1) push s = (some '\x7F', bell { s with chars := rest }) ∧
      (bell { s with chars := rest }).backward = s.backward ∧
      (bell { s with chars := rest }).forward = s.forward ∧
      (bell { s with chars := rest }).resp =
        (if '\x07' ∈ s.resp then s.resp else s.resp ++ ['\x07'])) ∧
    processCall ReadInstance.fresh ['\x7F', '\x7F', '\x7F'] =
      (⟨[], [], false⟩, ['\x07'], false) := by
  refine ⟨by decide, by decide, by decide, ?_, by decide⟩
  intro fuel push s rest hcr hb hch
  refine ⟨?_, by simp [bell_backward], by simp [bell_forward], by simpa using bell_resp _⟩
  rw [readChar_succ]
  simp only [hcr, Bool.false_eq_true, if_false, hch]
  simp [hb]

/-- Witness for claim C8: the empty-buffer backspace step applied to a
concrete state. -/
theorem c8_backspace_behaviour_witness :
    readChar 1 true ⟨[], ['z'], false, [], 0, ['\x7F'], false⟩ =
      (some '\x7F', bell ⟨[], ['z'], false, [], 0, [], false⟩) :=
  (c8_backspace_behaviour.2.2.2.1 0 true ⟨[], ['z'], false, [], 0, ['\x7F'], false⟩ []
    rfl rfl rfl).1

end Kotonemu

